import Mathlib

/-!
Shallow embedding of `src/vm/ubpf_verifier.c` (jpsamaroo/ubpf): the opcode
classifier (`isjmp`, `uses_src`, `sets_dst`), the recursive path walker
(`ubpf_walk_paths` / `ubpf_walk_start`), the loop/dead-instruction pass, the
uninitialized-register pass, and the top-level `ubpf_verify`.

Machine integers are modelled as `Nat` (the `uint8_t` opcode, register
fields) and `Int` (the signed 16-bit branch offset and the signed `int`
program-counter arithmetic of the C code).  The C recursion is embedded with
an explicit fuel parameter; a theorem below shows the canonical fuel is
always sufficient for programs with at least one instruction.  `fprintf`
diagnostics are modelled as an accumulated list of structured `Diag` values,
and the walker additionally records a ghost trace of every call it makes
(the kind of edge taken, the offset entered, and a snapshot of the
visited array as the visitor sees it); the trace does not influence any
computed verdict.
-/

namespace Ubpf

/-- Modelled from the spec: instruction-class mask from the repository's
`ebpf.h` header (not under `src/`), standard eBPF encoding. -/
def EBPF_CLS_MASK : Nat := 0x07

/-- Modelled from the spec: load-immediate instruction class. -/
def EBPF_CLS_LD : Nat := 0x00

/-- Modelled from the spec: load-indexed instruction class. -/
def EBPF_CLS_LDX : Nat := 0x01

/-- Modelled from the spec: plain store instruction class. -/
def EBPF_CLS_ST : Nat := 0x02

/-- Modelled from the spec: store-indexed instruction class. -/
def EBPF_CLS_STX : Nat := 0x03

/-- Modelled from the spec: 32-bit ALU instruction class. -/
def EBPF_CLS_ALU : Nat := 0x04

/-- Modelled from the spec: jump instruction class. -/
def EBPF_CLS_JMP : Nat := 0x05

/-- Modelled from the spec: 64-bit ALU instruction class. -/
def EBPF_CLS_ALU64 : Nat := 0x07

/-- Modelled from the spec: source-is-register addressing bit. -/
def EBPF_SRC_REG : Nat := 0x08

/-- Modelled from the spec: call opcode (jump class with call semantics). -/
def EBPF_OP_CALL : Nat := 0x85

/-- Modelled from the spec: exit opcode. -/
def EBPF_OP_EXIT : Nat := 0x95

/-- Modelled from the spec: unconditional-jump opcode. -/
def EBPF_OP_JA : Nat := 0x05

/-- Modelled from the spec: 32-bit negate opcode. -/
def EBPF_OP_NEG : Nat := 0x84

/-- Modelled from the spec: 64-bit negate opcode. -/
def EBPF_OP_NEG64 : Nat := 0x87

/-- Modelled from the spec: endian-swap-little opcode. -/
def EBPF_OP_LE : Nat := 0xd4

/-- Modelled from the spec: endian-swap-big opcode. -/
def EBPF_OP_BE : Nat := 0xdc

/-- Modelled from the spec: load-64-bit-immediate opcode. -/
def EBPF_OP_LDDW : Nat := 0x18

/-- Modelled from the spec: 32-bit register-register XOR opcode. -/
def EBPF_OP_XOR_REG : Nat := 0xac

/-- Modelled from the spec: 64-bit register-register XOR opcode. -/
def EBPF_OP_XOR64_REG : Nat := 0xaf

/-- Modelled from the spec: 64-bit register-register move opcode
(used only to build concrete test programs). -/
def EBPF_OP_MOV64_REG : Nat := 0xbf

/-- Modelled from the spec: jump-if-equal-immediate opcode
(used only to build concrete test programs). -/
def EBPF_OP_JEQ_IMM : Nat := 0x15

/-- `struct ebpf_inst`: opcode byte, destination and source register fields,
signed 16-bit relative branch offset, signed 32-bit immediate. -/
structure EbpfInst where
  opcode : Nat
  dst : Nat
  src : Nat
  offset : Int
  imm : Int
  deriving DecidableEq, Repr

/-- The all-zero instruction, used as the (never observed in-bounds) default
when reading the instruction array. -/
def defaultInst : EbpfInst := ⟨0, 0, 0, 0, 0⟩

/-- `isjmp` from the source: jump class and not the call opcode. -/
def isjmp (inst : EbpfInst) : Bool :=
  (inst.opcode &&& EBPF_CLS_MASK == EBPF_CLS_JMP) && (inst.opcode != EBPF_OP_CALL)

/-- `uses_src` from the source: does the instruction read its source
register field. -/
def uses_src (inst : EbpfInst) : Bool :=
  let cls := inst.opcode &&& EBPF_CLS_MASK
  if inst.opcode == EBPF_OP_EXIT then
    true
  else if cls == EBPF_CLS_STX || cls == EBPF_CLS_LDX then
    true
  else if ((cls == EBPF_CLS_ALU) || (cls == EBPF_CLS_ALU64) || (cls == EBPF_CLS_JMP))
      && (inst.opcode &&& EBPF_SRC_REG != 0) then
    if inst.opcode == EBPF_OP_NEG || inst.opcode == EBPF_OP_NEG64 ||
        inst.opcode == EBPF_OP_LE || inst.opcode == EBPF_OP_BE ||
        inst.opcode == EBPF_OP_LDDW || inst.opcode == EBPF_OP_JA ||
        inst.opcode == EBPF_OP_CALL then
      false
    else
      true
  else
    false

/-- `sets_dst` from the source: does the instruction write its destination
register.  True unless the class is plain store, store-indexed or jump. -/
def sets_dst (inst : EbpfInst) : Bool :=
  let cls := inst.opcode &&& EBPF_CLS_MASK
  if cls == EBPF_CLS_ST || cls == EBPF_CLS_STX || cls == EBPF_CLS_JMP then
    false
  else
    true

/-- The three values of `enum ubpf_walk_action`. -/
inductive WalkAction : Type where
  | cont : WalkAction
  | stop : WalkAction
  | invalid : WalkAction
  deriving DecidableEq, Repr

/-- The C `enum` value of each walk action (`UBPF_WALK_CONTINUE` = 0,
`UBPF_WALK_STOP` = 1, `UBPF_WALK_INVALID` = 2). -/
def WalkAction.code : WalkAction → Nat
  | .cont => 0
  | .stop => 1
  | .invalid => 2

/-- Structured model of the `fprintf(stderr, ...)` diagnostics. -/
inductive Diag : Type where
  | jumpToSelf (off : Nat) : Diag
  | jumpOutOfBounds (off : Nat) (target : Int) : Diag
  | loopDetected (off : Nat) : Diag
  | deadInst (off : Nat) : Diag
  | uninitReg (reg : Nat) (off : Nat) : Diag
  deriving DecidableEq, Repr

/-- Which edge a `ubpf_walk_paths` call was reached by: the initial call,
a jump (branch) edge, or the fall-through edge to offset+1. -/
inductive WalkKind : Type where
  | start : WalkKind
  | jumpEdge : WalkKind
  | fallThrough : WalkKind
  deriving DecidableEq, Repr

/-- Ghost record of one `ubpf_walk_paths` call: how it was entered, the
offset it entered, and the visited array exactly as its visitor sees it
(the C code marks `visited[inst_off]` only after the visitor returns). -/
structure TraceEntry : Type where
  kind : WalkKind
  off : Nat
  snapshot : List Bool
  deriving DecidableEq, Repr

/-- Everything a (successful, fuel-sufficient) walk returns: the C return
value, the final visitor data, the final visited array, the emitted
diagnostics in order, and the ghost trace of calls in order. -/
structure WalkResult (σ : Type) : Type where
  action : WalkAction
  data : σ
  visited : List Bool
  diags : List Diag
  trace : List TraceEntry
  deriving DecidableEq, Repr

/-- The `WALKER` function-pointer type: a visitor receives the program, the
current instruction, its own data, the current offset and the visited
array, and returns an action, updated data and any diagnostics it prints. -/
def Visitor (σ : Type) : Type :=
  List EbpfInst → EbpfInst → σ → Nat → List Bool → WalkAction × σ × List Diag

/-- Reading `vm->insts[inst_off]`. -/
def instAt (prog : List EbpfInst) (off : Nat) : EbpfInst :=
  prog.getD off defaultInst

/-- Reading the `char visited[]` array at a C `int` index, as the loop
visitor does (`visited[inst_off+1+inst.offset]`).  A negative or
past-the-end index is undefined behaviour in C; the model returns `false`
there (the separate safety analysis flags when this case is reachable). -/
def visitedAtInt (v : List Bool) (i : Int) : Bool :=
  if 0 ≤ i then v.getD i.toNat false else false

/-- The jump target `inst_off+1+inst.offset` computed with C `int`
arithmetic. -/
def nextPc (off : Nat) (inst : EbpfInst) : Int :=
  (off : Int) + 1 + inst.offset

/-- `ubpf_walk_paths`, embedded with an explicit fuel parameter (`none` means
the fuel ran out before the C recursion would have returned).  The body
mirrors the C function line by line: read the instruction, call the visitor,
mark the current offset visited, propagate a non-continue visitor verdict,
return on `exit`, handle a jump (self-jump check, bounds check, descend into
an unvisited target and propagate stop/invalid), return at the last
instruction, otherwise fall through to offset+1.  The `Except` value
separates the early returns from the state that reaches the fall-through
code at the end of the C function.  The final `WalkKind` argument and the
trace are ghost instrumentation only. -/
def walkPaths {σ : Type} :
    Nat → List EbpfInst → Visitor σ → σ → Nat → List Bool → WalkKind →
    Option (WalkResult σ)
  | 0, _, _, _, _, _, _ => none
  | Nat.succ fuel, prog, f, s, off, v, kind =>
    let inst := instAt prog off
    let entry : TraceEntry := ⟨kind, off, v⟩
    match f prog inst s off v with
    | (cmd, s1, d1) =>
      let v1 := v.set off true
      let pre : Except (Option (WalkResult σ))
          (σ × List Bool × List Diag × List TraceEntry) :=
        if cmd ≠ WalkAction.cont then
          Except.error (some ⟨cmd, s1, v1, d1, [entry]⟩)
        else if inst.opcode = EBPF_OP_EXIT then
          Except.error (some ⟨WalkAction.cont, s1, v1, d1, [entry]⟩)
        else if isjmp inst then
          let np := nextPc off inst
          if np = (off : Int) then
            Except.error (some ⟨WalkAction.invalid, s1, v1,
              d1 ++ [Diag.jumpToSelf off], [entry]⟩)
          else if np < 0 ∨ (prog.length : Int) - 1 < np then
            Except.error (some ⟨WalkAction.invalid, s1, v1,
              d1 ++ [Diag.jumpOutOfBounds off np], [entry]⟩)
          else if v1.getD np.toNat false = false then
            match walkPaths fuel prog f s1 np.toNat v1 WalkKind.jumpEdge with
            | none => Except.error none
            | some r2 =>
              if r2.action = WalkAction.stop ∨ r2.action = WalkAction.invalid then
                Except.error (some ⟨r2.action, r2.data, r2.visited,
                  d1 ++ r2.diags, entry :: r2.trace⟩)
              else
                Except.ok (r2.data, r2.visited, d1 ++ r2.diags, entry :: r2.trace)
          else
            Except.ok (s1, v1, d1, [entry])
        else
          Except.ok (s1, v1, d1, [entry])
      match pre with
      | Except.error res => res
      | Except.ok (s2, v2, d2, t2) =>
        if (off : Int) = (prog.length : Int) - 1 then
          some ⟨WalkAction.cont, s2, v2, d2, t2⟩
        else
          match walkPaths fuel prog f s2 (off + 1) v2 WalkKind.fallThrough with
          | none => none
          | some r3 =>
            some ⟨r3.action, r3.data, r3.visited, d2 ++ r3.diags, t2 ++ r3.trace⟩

/-- The canonical fuel: enough for any walk over an `n`-instruction program
(proved below). -/
def walkFuel (n : Nat) : Nat := (n + 1) * (n + 1)

/-- `ubpf_walk_start`: allocate an all-false visited array sized to the
program and begin the walk at offset 0 with the canonical fuel. -/
def ubpf_walk_start {σ : Type} (prog : List EbpfInst) (f : Visitor σ) (s : σ) :
    Option (WalkResult σ) :=
  walkPaths (walkFuel prog.length) prog f s 0
    (List.replicate prog.length false) WalkKind.start

/-- The short-circuit guard of `_walker_no_loops_or_dead_insts` under which
the C code evaluates `visited[inst_off+1+inst.offset]`: the instruction is a
jump and its computed target is strictly before the current offset. -/
def loopVisitorProbes (inst : EbpfInst) (off : Nat) : Bool :=
  isjmp inst && decide (nextPc off inst < (off : Int))

/-- `_walker_no_loops_or_dead_insts`: stop with a loop diagnostic when a
jump's target is strictly before the current offset and already visited;
otherwise continue.  The `visited` read happens at the raw C `int` index,
and only when `loopVisitorProbes` holds (C `&&` short-circuits). -/
def _walker_no_loops_or_dead_insts : Visitor Unit :=
  fun _prog inst s off v =>
    if loopVisitorProbes inst off && visitedAtInt v (nextPc off inst) then
      (WalkAction.stop, s, [Diag.loopDetected off])
    else
      (WalkAction.cont, s, [])

/-- The offsets the post-walk scan of `ubpf_verify_no_loops_or_dead_insts`
reports as dead: every offset whose visited flag is still unset. -/
def deadOffsets (n : Nat) (v : List Bool) : List Nat :=
  (List.range n).filter (fun i => v.getD i false = false)

/-- `ubpf_verify_no_loops_or_dead_insts`: run the walk with the loop/dead
visitor over a fresh visited array, then scan for dead instructions.  The
return value is the C `ret | any_dead` together with the diagnostics in
emission order (walk diagnostics first, then one per dead offset). -/
def ubpf_verify_no_loops_or_dead_insts (prog : List EbpfInst) :
    Option (Nat × List Diag) :=
  match walkPaths (walkFuel prog.length) prog _walker_no_loops_or_dead_insts ()
      0 (List.replicate prog.length false) WalkKind.start with
  | none => none
  | some r =>
    let dead := deadOffsets prog.length r.visited
    some (r.action.code ||| (if dead = [] then 0 else 1),
      r.diags ++ dead.map Diag.deadInst)

/-- `_walker_no_uninit_regs`: the register-initialization visitor.  Special
case the register-register XOR zero idiom, flag a read of an unmarked
source register, otherwise mark a written destination; a call additionally
marks register 0. -/
def _walker_no_uninit_regs : Visitor (List Bool) :=
  fun _prog inst regInit off _v =>
    let step :=
      if ((inst.opcode = EBPF_OP_XOR_REG) ∨ (inst.opcode = EBPF_OP_XOR64_REG))
          ∧ inst.dst = inst.src then
        Except.ok (regInit.set inst.dst true)
      else if uses_src inst ∧ regInit.getD inst.src false = false then
        Except.error ()
      else if sets_dst inst then
        Except.ok (regInit.set inst.dst true)
      else
        Except.ok regInit
    match step with
    | Except.error _ =>
      (WalkAction.stop, regInit, [Diag.uninitReg inst.src off])
    | Except.ok regInit1 =>
      (WalkAction.cont,
        (if inst.opcode = EBPF_OP_CALL then regInit1.set 0 true else regInit1),
        [])

/-- The initial register bitmap of `ubpf_verify_no_uninit_regs`:
`char reg_init[16] = {0}` with registers 1 and 10 pre-marked. -/
def initRegInit : List Bool :=
  ((List.replicate 16 false).set 1 true).set 10 true

/-- `ubpf_verify_no_uninit_regs`: run the walk with the register visitor; the
pass returns the walk's C return value and its diagnostics. -/
def ubpf_verify_no_uninit_regs (prog : List EbpfInst) :
    Option (Nat × List Diag) :=
  match ubpf_walk_start prog _walker_no_uninit_regs initRegInit with
  | none => none
  | some r => some (r.action.code, r.diags)

/-- `ubpf_verify`: run the loop/dead pass; on failure return 1 at once,
otherwise run the uninitialized-register pass and fail iff it fails.
Returns the C return value together with all diagnostics emitted, in
order. -/
def ubpf_verify (prog : List EbpfInst) : Option (Nat × List Diag) :=
  match ubpf_verify_no_loops_or_dead_insts prog with
  | none => none
  | some (r1, d1) =>
    if r1 ≠ 0 then some (1, d1)
    else
      match ubpf_verify_no_uninit_regs prog with
      | none => none
      | some (r2, d2) =>
        if r2 ≠ 0 then some (1, d1 ++ d2) else some (0, d1 ++ d2)


/-- The fall-through tail of a `walkPaths` call: either the current offset is
the last instruction, or the walk recurses into offset+1 and returns its
result with the accumulated diagnostics and trace prepended. -/
def FallOut {σ : Type} (fuel : Nat) (prog : List EbpfInst) (f : Visitor σ)
    (s2 : σ) (v2 : List Bool) (d2 : List Diag) (t2 : List TraceEntry)
    (off : Nat) (r : WalkResult σ) : Prop :=
  ((off : Int) = (prog.length : Int) - 1 ∧ r = ⟨WalkAction.cont, s2, v2, d2, t2⟩) ∨
  ((off : Int) ≠ (prog.length : Int) - 1 ∧ ∃ r3,
    walkPaths fuel prog f s2 (off + 1) v2 WalkKind.fallThrough = some r3 ∧
    r = ⟨r3.action, r3.data, r3.visited, d2 ++ r3.diags, t2 ++ r3.trace⟩)


/-- The number of unvisited (`false`) entries of a visited array: the
termination measure of the walk. -/
def countFalse : List Bool → Nat
  | [] => 0
  | b :: t => (if b then 0 else 1) + countFalse t

/-- The C return value of `ubpf_verify` (0 = accept, 1 = reject), `none` when
the modelled fuel would be exhausted. -/
def verifyCode (prog : List EbpfInst) : Option Nat :=
  (ubpf_verify prog).map Prod.fst

/-- The diagnostics `ubpf_verify` emits, in order ([] when the modelled fuel
would be exhausted). -/
def verifyDiags (prog : List EbpfInst) : List Diag :=
  match ubpf_verify prog with
  | none => []
  | some (_, ds) => ds

/-- The spec's description of the reads-source-register classifier, written
as a predicate following the spec's words (for comparison against the
source's `uses_src`): opcode is exit; or the class is store-indexed or
load-indexed; or the class is ALU 32-bit, ALU 64-bit or jump, the
source-is-register bit is set, and the opcode is none of the seven
exceptions. -/
def readsSourceRegisterSpec (inst : EbpfInst) : Prop :=
  inst.opcode = EBPF_OP_EXIT ∨
  (inst.opcode &&& EBPF_CLS_MASK = EBPF_CLS_STX ∨
    inst.opcode &&& EBPF_CLS_MASK = EBPF_CLS_LDX) ∨
  ((inst.opcode &&& EBPF_CLS_MASK = EBPF_CLS_ALU ∨
      inst.opcode &&& EBPF_CLS_MASK = EBPF_CLS_ALU64 ∨
      inst.opcode &&& EBPF_CLS_MASK = EBPF_CLS_JMP) ∧
    inst.opcode &&& EBPF_SRC_REG ≠ 0 ∧
    ¬ (inst.opcode = EBPF_OP_NEG ∨ inst.opcode = EBPF_OP_NEG64 ∨
        inst.opcode = EBPF_OP_LE ∨ inst.opcode = EBPF_OP_BE ∨
        inst.opcode = EBPF_OP_LDDW ∨ inst.opcode = EBPF_OP_JA ∨
        inst.opcode = EBPF_OP_CALL))

/-- Pointwise ordering of visited arrays: every offset marked in the first
is marked in the second. -/
def VLe (v w : List Bool) : Prop :=
  ∀ j : Nat, v.getD j false = true → w.getD j false = true

/-- The exit instruction with all register fields zero. -/
def exitInst : EbpfInst := ⟨EBPF_OP_EXIT, 0, 0, 0, 0⟩

/-- The one-instruction program of spec scenario 1: just `exit`. -/
def progExit : List EbpfInst := [exitInst]

/-- A two-instruction program whose first instruction is a conditional jump
with branch offset 0 (so its branch target and its fall-through target are
both offset 1): `jeq +0; exit`. -/
def progJumpMerge : List EbpfInst :=
  [⟨EBPF_OP_JEQ_IMM, 0, 0, 0, 0⟩, exitInst]

/-- The four-instruction diamond of spec scenario 6:
`jeq r1, 0, +1; mov r0, r1; exit; mov r0, r10`. -/
def progDiamond : List EbpfInst :=
  [⟨EBPF_OP_JEQ_IMM, 1, 0, 1, 0⟩, ⟨EBPF_OP_MOV64_REG, 0, 1, 0, 0⟩,
    exitInst, ⟨EBPF_OP_MOV64_REG, 0, 10, 0, 0⟩]

/-- A program with an unreachable self-jump: `exit; ja -1`. -/
def progDeadSelfJump : List EbpfInst :=
  [exitInst, ⟨EBPF_OP_JA, 0, 0, -1, 0⟩]

/-- A program whose single instruction jumps to itself: `ja -1`. -/
def progSelfJump : List EbpfInst := [⟨EBPF_OP_JA, 0, 0, -1, 0⟩]

/-- A program whose single instruction is a backward jump to the negative
target -1: `ja -2`. -/
def progNegTarget : List EbpfInst := [⟨EBPF_OP_JA, 0, 0, -2, 0⟩]

/-- A two-instruction loop: `ja +0; ja -2` (offset 1 jumps back to the
already-visited offset 0). -/
def progLoop : List EbpfInst :=
  [⟨EBPF_OP_JA, 0, 0, 0, 0⟩, ⟨EBPF_OP_JA, 0, 0, -2, 0⟩]

theorem walk_succ_cases {σ : Type} {prog : List EbpfInst} {f : Visitor σ} {fuel : Nat}
    {s : σ} {off : Nat} {v : List Bool} {kind : WalkKind} {r : WalkResult σ}
    (h : walkPaths (fuel + 1) prog f s off v kind = some r) :
    ∃ cmd s1 d1, f prog (instAt prog off) s off v = (cmd, s1, d1) ∧
      ((cmd ≠ WalkAction.cont ∧
        r = ⟨cmd, s1, v.set off true, d1, [⟨kind, off, v⟩]⟩) ∨
      (cmd = WalkAction.cont ∧ (instAt prog off).opcode = EBPF_OP_EXIT ∧
        r = ⟨WalkAction.cont, s1, v.set off true, d1, [⟨kind, off, v⟩]⟩) ∨
      (cmd = WalkAction.cont ∧ (instAt prog off).opcode ≠ EBPF_OP_EXIT ∧
        isjmp (instAt prog off) = true ∧
        nextPc off (instAt prog off) = (off : Int) ∧
        r = ⟨WalkAction.invalid, s1, v.set off true,
          d1 ++ [Diag.jumpToSelf off], [⟨kind, off, v⟩]⟩) ∨
      (cmd = WalkAction.cont ∧ (instAt prog off).opcode ≠ EBPF_OP_EXIT ∧
        isjmp (instAt prog off) = true ∧
        nextPc off (instAt prog off) ≠ (off : Int) ∧
        (nextPc off (instAt prog off) < 0 ∨
          (prog.length : Int) - 1 < nextPc off (instAt prog off)) ∧
        r = ⟨WalkAction.invalid, s1, v.set off true,
          d1 ++ [Diag.jumpOutOfBounds off (nextPc off (instAt prog off))],
          [⟨kind, off, v⟩]⟩) ∨
      (∃ r2, cmd = WalkAction.cont ∧ (instAt prog off).opcode ≠ EBPF_OP_EXIT ∧
        isjmp (instAt prog off) = true ∧
        nextPc off (instAt prog off) ≠ (off : Int) ∧
        ¬ (nextPc off (instAt prog off) < 0 ∨
          (prog.length : Int) - 1 < nextPc off (instAt prog off)) ∧
        (v.set off true).getD (nextPc off (instAt prog off)).toNat false = false ∧
        walkPaths fuel prog f s1 (nextPc off (instAt prog off)).toNat
          (v.set off true) WalkKind.jumpEdge = some r2 ∧
        (r2.action = WalkAction.stop ∨ r2.action = WalkAction.invalid) ∧
        r = ⟨r2.action, r2.data, r2.visited, d1 ++ r2.diags,
          ⟨kind, off, v⟩ :: r2.trace⟩) ∨
      (∃ r2, cmd = WalkAction.cont ∧ (instAt prog off).opcode ≠ EBPF_OP_EXIT ∧
        isjmp (instAt prog off) = true ∧
        nextPc off (instAt prog off) ≠ (off : Int) ∧
        ¬ (nextPc off (instAt prog off) < 0 ∨
          (prog.length : Int) - 1 < nextPc off (instAt prog off)) ∧
        (v.set off true).getD (nextPc off (instAt prog off)).toNat false = false ∧
        walkPaths fuel prog f s1 (nextPc off (instAt prog off)).toNat
          (v.set off true) WalkKind.jumpEdge = some r2 ∧
        ¬ (r2.action = WalkAction.stop ∨ r2.action = WalkAction.invalid) ∧
        FallOut fuel prog f r2.data r2.visited (d1 ++ r2.diags)
          (⟨kind, off, v⟩ :: r2.trace) off r) ∨
      (cmd = WalkAction.cont ∧ (instAt prog off).opcode ≠ EBPF_OP_EXIT ∧
        isjmp (instAt prog off) = true ∧
        nextPc off (instAt prog off) ≠ (off : Int) ∧
        ¬ (nextPc off (instAt prog off) < 0 ∨
          (prog.length : Int) - 1 < nextPc off (instAt prog off)) ∧
        ¬ ((v.set off true).getD (nextPc off (instAt prog off)).toNat false = false) ∧
        FallOut fuel prog f s1 (v.set off true) d1 [⟨kind, off, v⟩] off r) ∨
      (cmd = WalkAction.cont ∧ (instAt prog off).opcode ≠ EBPF_OP_EXIT ∧
        ¬ (isjmp (instAt prog off) = true) ∧
        FallOut fuel prog f s1 (v.set off true) d1 [⟨kind, off, v⟩] off r)) := by
  rw [walkPaths] at h
  rcases hfv : f prog (instAt prog off) s off v with ⟨cmd, s1, d1⟩
  rw [hfv] at h
  simp only [] at h
  refine ⟨cmd, s1, d1, rfl, ?_⟩
  split at h
  case _ res hpre =>
    split at hpre
    · rename_i hcmd
      injection hpre with hpre
      rw [← hpre] at h
      injection h with h
      exact Or.inl ⟨hcmd, h.symm⟩
    · rename_i hcmd
      simp only [ne_eq, not_not] at hcmd
      split at hpre
      · rename_i hexit
        injection hpre with hpre
        rw [← hpre] at h
        injection h with h
        exact Or.inr (Or.inl ⟨hcmd, hexit, h.symm⟩)
      · rename_i hexit
        split at hpre
        · rename_i hjmp
          split at hpre
          · rename_i hself
            injection hpre with hpre
            rw [← hpre] at h
            injection h with h
            exact Or.inr (Or.inr (Or.inl ⟨hcmd, hexit, hjmp, hself, h.symm⟩))
          · rename_i hself
            split at hpre
            · rename_i hoob
              injection hpre with hpre
              rw [← hpre] at h
              injection h with h
              exact Or.inr (Or.inr (Or.inr (Or.inl
                ⟨hcmd, hexit, hjmp, hself, hoob, h.symm⟩)))
            · rename_i hoob
              split at hpre
              · rename_i hunv
                split at hpre
                · injection hpre with hpre
                  rw [← hpre] at h
                  cases h
                · rename_i r2 hsub
                  split at hpre
                  · rename_i hstop
                    injection hpre with hpre
                    rw [← hpre] at h
                    injection h with h
                    exact Or.inr (Or.inr (Or.inr (Or.inr (Or.inl
                      ⟨r2, hcmd, hexit, hjmp, hself, hoob, hunv, hsub, hstop, h.symm⟩))))
                  · cases hpre
              · cases hpre
        · cases hpre
  case _ s2 v2 d2 t2 hpre =>
    have hfall : ∀ s2' v2' d2' t2', s2 = s2' → v2 = v2' → d2 = d2' → t2 = t2' →
        FallOut fuel prog f s2' v2' d2' t2' off r := by
      intro s2' v2' d2' t2' e1 e2 e3 e4
      subst e1; subst e2; subst e3; subst e4
      split at h
      · rename_i hlast
        injection h with h
        exact Or.inl ⟨hlast, h.symm⟩
      · rename_i hlast
        split at h
        · cases h
        · rename_i r3 hsub3
          injection h with h
          exact Or.inr ⟨hlast, r3, hsub3, h.symm⟩
    clear h
    split at hpre
    · cases hpre
    · rename_i hcmd
      simp only [ne_eq, not_not] at hcmd
      split at hpre
      · cases hpre
      · rename_i hexit
        split at hpre
        · rename_i hjmp
          split at hpre
          · cases hpre
          · rename_i hself
            split at hpre
            · cases hpre
            · rename_i hoob
              split at hpre
              · rename_i hunv
                split at hpre
                · cases hpre
                · rename_i r2 hsub
                  split at hpre
                  · cases hpre
                  · rename_i hstop
                    injection hpre with hpre
                    injection hpre with e1 hpre
                    injection hpre with e2 hpre
                    injection hpre with e3 e4
                    exact Or.inr (Or.inr (Or.inr (Or.inr (Or.inr (Or.inl
                      ⟨r2, hcmd, hexit, hjmp, hself, hoob, hunv, hsub, hstop,
                        hfall _ _ _ _ e1.symm e2.symm e3.symm e4.symm⟩)))))
              · rename_i hunv
                injection hpre with hpre
                injection hpre with e1 hpre
                injection hpre with e2 hpre
                injection hpre with e3 e4
                exact Or.inr (Or.inr (Or.inr (Or.inr (Or.inr (Or.inr (Or.inl
                  ⟨hcmd, hexit, hjmp, hself, hoob, hunv,
                    hfall _ _ _ _ e1.symm e2.symm e3.symm e4.symm⟩))))))
        · rename_i hjmp
          injection hpre with hpre
          injection hpre with e1 hpre
          injection hpre with e2 hpre
          injection hpre with e3 e4
          exact Or.inr (Or.inr (Or.inr (Or.inr (Or.inr (Or.inr (Or.inr
            ⟨hcmd, hexit, hjmp,
              hfall _ _ _ _ e1.symm e2.symm e3.symm e4.symm⟩))))))


theorem VLe.refl (v : List Bool) : VLe v v := fun _ h => h

theorem VLe.trans {u v w : List Bool} (h1 : VLe u v) (h2 : VLe v w) : VLe u w :=
  fun j h => h2 j (h1 j h)

theorem getD_set_pos (v : List Bool) (i : Nat) (h : i < v.length) :
    (v.set i true).getD i false = true := by
  induction v generalizing i with
  | nil => simp at h
  | cons a t ih =>
    cases i with
    | zero => rfl
    | succ n => exact ih n (by simpa using h)

theorem getD_set_ne (v : List Bool) (i j : Nat) (h : i ≠ j) (b : Bool) :
    (v.set i b).getD j false = v.getD j false := by
  induction v generalizing i j with
  | nil => rfl
  | cons a t ih =>
    cases i with
    | zero =>
      cases j with
      | zero => exact absurd rfl h
      | succ m => rfl
    | succ n =>
      cases j with
      | zero => rfl
      | succ m => exact ih n m (fun hnm => h (by rw [hnm]))

theorem getD_true_lt (v : List Bool) (j : Nat) (h : v.getD j false = true) :
    j < v.length := by
  induction v generalizing j with
  | nil => simp [List.getD] at h
  | cons a t ih =>
    cases j with
    | zero => simp
    | succ m => simpa using ih m h

theorem vle_set (v : List Bool) (i : Nat) : VLe v (v.set i true) := by
  intro j hj
  by_cases hij : i = j
  · subst hij
    exact getD_set_pos v i (getD_true_lt v i hj)
  · rw [getD_set_ne v i j hij]
    exact hj

theorem walk_basic {σ : Type} (prog : List EbpfInst) (f : Visitor σ) :
    ∀ (fuel : Nat) (s : σ) (off : Nat) (v : List Bool) (kind : WalkKind)
      (r : WalkResult σ),
      walkPaths fuel prog f s off v kind = some r →
      off < prog.length → v.length = prog.length →
      r.visited.length = prog.length ∧
      VLe v r.visited ∧
      (∃ t, r.trace = TraceEntry.mk kind off v :: t) ∧
      (∀ e ∈ r.trace, e.off < prog.length ∧ e.snapshot.length = prog.length ∧
        VLe v e.snapshot) ∧
      (∀ e ∈ r.trace, r.visited.getD e.off false = true) ∧
      (∀ j : Nat, r.visited.getD j false = true →
        v.getD j false = true ∨ j ∈ r.trace.map TraceEntry.off) := by
  intro fuel
  induction fuel with
  | zero =>
    intro s off v kind r h _ _
    simp [walkPaths] at h
  | succ fuel ih =>
    intro s off v kind r h hoff hlen
    obtain ⟨cmd, s1, d1, hfv, hc⟩ := walk_succ_cases h
    have hv1len : (v.set off true).length = prog.length := by
      rw [List.length_set]; exact hlen
    have hv1le : VLe v (v.set off true) := vle_set v off
    have hv1off : (v.set off true).getD off false = true :=
      getD_set_pos v off (hlen ▸ hoff)
    have baseNew : ∀ j : Nat, (v.set off true).getD j false = true →
        v.getD j false = true ∨ j ∈ [off] := by
      intro j hj
      by_cases hoj : off = j
      · right; rw [hoj]; exact List.mem_singleton_self j
      · left; rw [getD_set_ne v off j hoj] at hj; exact hj
    have baseCase : ∀ (act : WalkAction) (sx : σ) (d : List Diag),
        (WalkResult.mk act sx (v.set off true) d
          [TraceEntry.mk kind off v]).visited.length = prog.length ∧
        VLe v (WalkResult.mk act sx (v.set off true) d
          [TraceEntry.mk kind off v]).visited ∧
        (∃ t, (WalkResult.mk act sx (v.set off true) d
          [TraceEntry.mk kind off v]).trace = TraceEntry.mk kind off v :: t) ∧
        (∀ e ∈ (WalkResult.mk act sx (v.set off true) d
            [TraceEntry.mk kind off v]).trace,
          e.off < prog.length ∧ e.snapshot.length = prog.length ∧
            VLe v e.snapshot) ∧
        (∀ e ∈ (WalkResult.mk act sx (v.set off true) d
            [TraceEntry.mk kind off v]).trace,
          (WalkResult.mk act sx (v.set off true) d
            [TraceEntry.mk kind off v]).visited.getD e.off false = true) ∧
        (∀ j : Nat, (WalkResult.mk act sx (v.set off true) d
            [TraceEntry.mk kind off v]).visited.getD j false = true →
          v.getD j false = true ∨
            j ∈ (WalkResult.mk act sx (v.set off true) d
              [TraceEntry.mk kind off v]).trace.map TraceEntry.off) := by
      intro act sx d
      refine ⟨hv1len, hv1le, ⟨[], rfl⟩, ?_, ?_, ?_⟩
      · intro e he
        rw [List.mem_singleton] at he
        subst he
        exact ⟨hoff, hlen, VLe.refl v⟩
      · intro e he
        rw [List.mem_singleton] at he
        subst he
        exact hv1off
      · intro j hj
        simpa using baseNew j hj
    -- facts about the state after a continuing jump descent
    have jumpFacts : ∀ (r2 : WalkResult σ),
        walkPaths fuel prog f s1
          (nextPc off (instAt prog off)).toNat (v.set off true)
          WalkKind.jumpEdge = some r2 →
        ¬ (nextPc off (instAt prog off) < 0 ∨
          (prog.length : Int) - 1 < nextPc off (instAt prog off)) →
        r2.visited.length = prog.length ∧
        VLe v r2.visited ∧
        (∃ t, (TraceEntry.mk kind off v :: r2.trace) =
          TraceEntry.mk kind off v :: t) ∧
        (∀ e ∈ TraceEntry.mk kind off v :: r2.trace,
          e.off < prog.length ∧ e.snapshot.length = prog.length ∧
            VLe v e.snapshot) ∧
        (∀ e ∈ TraceEntry.mk kind off v :: r2.trace,
          r2.visited.getD e.off false = true) ∧
        (∀ j : Nat, r2.visited.getD j false = true →
          v.getD j false = true ∨
            j ∈ (TraceEntry.mk kind off v :: r2.trace).map TraceEntry.off) := by
      intro r2 hsub hoob
      have hnp : (nextPc off (instAt prog off)).toNat < prog.length := by
        push_neg at hoob
        omega
      obtain ⟨i2len, i2le, _, i2ent, i2mark, i2new⟩ :=
        ih s1 (nextPc off (instAt prog off)).toNat (v.set off true)
          WalkKind.jumpEdge r2 hsub hnp hv1len
      refine ⟨i2len, VLe.trans hv1le i2le, ⟨r2.trace, rfl⟩, ?_, ?_, ?_⟩
      · intro e he
        rcases List.mem_cons.mp he with he | he
        · subst he
          exact ⟨hoff, hlen, VLe.refl v⟩
        · obtain ⟨h1, h2, h3⟩ := i2ent e he
          exact ⟨h1, h2, VLe.trans hv1le h3⟩
      · intro e he
        rcases List.mem_cons.mp he with he | he
        · subst he
          exact i2le off hv1off
        · exact i2mark e he
      · intro j hj
        rcases i2new j hj with hj2 | hj2
        · rcases baseNew j hj2 with hj3 | hj3
          · exact Or.inl hj3
          · right
            rw [List.mem_singleton] at hj3
            subst hj3
            simp
        · right
          simp only [List.map_cons, List.mem_cons]
          exact Or.inr hj2
    -- the fall-through tail preserves the invariants
    have fallCase : ∀ (s2 : σ) (v2 : List Bool) (d2 : List Diag)
        (t2 : List TraceEntry),
        v2.length = prog.length → VLe v v2 →
        (∃ t, t2 = TraceEntry.mk kind off v :: t) →
        (∀ e ∈ t2, e.off < prog.length ∧ e.snapshot.length = prog.length ∧
          VLe v e.snapshot) →
        (∀ e ∈ t2, v2.getD e.off false = true) →
        (∀ j : Nat, v2.getD j false = true →
          v.getD j false = true ∨ j ∈ t2.map TraceEntry.off) →
        FallOut fuel prog f s2 v2 d2 t2 off r →
        r.visited.length = prog.length ∧
        VLe v r.visited ∧
        (∃ t, r.trace = TraceEntry.mk kind off v :: t) ∧
        (∀ e ∈ r.trace, e.off < prog.length ∧ e.snapshot.length = prog.length ∧
          VLe v e.snapshot) ∧
        (∀ e ∈ r.trace, r.visited.getD e.off false = true) ∧
        (∀ j : Nat, r.visited.getD j false = true →
          v.getD j false = true ∨ j ∈ r.trace.map TraceEntry.off) := by
      intro s2 v2 d2 t2 h2len h2le h2head h2ent h2mark h2new hf
      rcases hf with ⟨hlast, hr⟩ | ⟨hlast, r3, hsub3, hr⟩
      · subst hr
        exact ⟨h2len, h2le, h2head, h2ent, h2mark, h2new⟩
      · have hoff3 : off + 1 < prog.length := by omega
        obtain ⟨i3len, i3le, _, i3ent, i3mark, i3new⟩ :=
          ih s2 (off + 1) v2 WalkKind.fallThrough r3 hsub3 hoff3 h2len
        subst hr
        obtain ⟨t2', h2head⟩ := h2head
        refine ⟨i3len, VLe.trans h2le i3le, ?_, ?_, ?_, ?_⟩
        · exact ⟨t2' ++ r3.trace, by rw [h2head]; rfl⟩
        · intro e he
          rcases List.mem_append.mp he with he | he
          · exact h2ent e he
          · obtain ⟨h1, h2, h3⟩ := i3ent e he
            exact ⟨h1, h2, VLe.trans h2le h3⟩
        · intro e he
          rcases List.mem_append.mp he with he | he
          · exact i3le e.off (h2mark e he)
          · exact i3mark e he
        · intro j hj
          rcases i3new j hj with hj2 | hj2
          · rcases h2new j hj2 with hj3 | hj3
            · exact Or.inl hj3
            · right
              rw [List.map_append, List.mem_append]
              exact Or.inl hj3
          · right
            rw [List.map_append, List.mem_append]
            exact Or.inr hj2
    rcases hc with ⟨hcmd, hr⟩ | ⟨hcmd, hexit, hr⟩ |
      ⟨hcmd, hexit, hjmp, hself, hr⟩ |
      ⟨hcmd, hexit, hjmp, hself, hoob, hr⟩ |
      ⟨r2, hcmd, hexit, hjmp, hself, hoob, hunv, hsub, hstop, hr⟩ |
      ⟨r2, hcmd, hexit, hjmp, hself, hoob, hunv, hsub, hstop, hfall⟩ |
      ⟨hcmd, hexit, hjmp, hself, hoob, hunv, hfall⟩ |
      ⟨hcmd, hexit, hjmp, hfall⟩
    · subst hr; exact baseCase cmd s1 d1
    · subst hr; exact baseCase WalkAction.cont s1 d1
    · subst hr; exact baseCase WalkAction.invalid s1 (d1 ++ [Diag.jumpToSelf off])
    · subst hr
      exact baseCase WalkAction.invalid s1
        (d1 ++ [Diag.jumpOutOfBounds off (nextPc off (instAt prog off))])
    · subst hr
      obtain ⟨j1, j2, _, j4, j5, j6⟩ := jumpFacts r2 hsub hoob
      exact ⟨j1, j2, ⟨r2.trace, rfl⟩, j4, j5, j6⟩
    · obtain ⟨j1, j2, j3, j4, j5, j6⟩ := jumpFacts r2 hsub hoob
      exact fallCase r2.data r2.visited (d1 ++ r2.diags)
        (TraceEntry.mk kind off v :: r2.trace) j1 j2 ⟨r2.trace, rfl⟩ j4 j5 j6 hfall
    · refine fallCase s1 (v.set off true) d1 [TraceEntry.mk kind off v]
        hv1len hv1le ⟨[], rfl⟩ ?_ ?_ ?_ hfall
      · intro e he
        rw [List.mem_singleton] at he
        subst he
        exact ⟨hoff, hlen, VLe.refl v⟩
      · intro e he
        rw [List.mem_singleton] at he
        subst he
        exact hv1off
      · intro j hj
        simpa using baseNew j hj
    · refine fallCase s1 (v.set off true) d1 [TraceEntry.mk kind off v]
        hv1len hv1le ⟨[], rfl⟩ ?_ ?_ ?_ hfall
      · intro e he
        rw [List.mem_singleton] at he
        subst he
        exact ⟨hoff, hlen, VLe.refl v⟩
      · intro e he
        rw [List.mem_singleton] at he
        subst he
        exact hv1off
      · intro j hj
        simpa using baseNew j hj

theorem countFalse_set_le (v : List Bool) (i : Nat) :
    countFalse (v.set i true) ≤ countFalse v := by
  induction v generalizing i with
  | nil => simp [countFalse]
  | cons a t ih =>
    cases i with
    | zero =>
      simp only [List.set, countFalse]
      cases a <;> simp
    | succ n =>
      simp only [List.set, countFalse]
      have := ih n
      omega

theorem countFalse_set_lt (v : List Bool) (i : Nat) (hlt : i < v.length)
    (hf : v.getD i false = false) :
    countFalse (v.set i true) < countFalse v := by
  induction v generalizing i with
  | nil => simp at hlt
  | cons a t ih =>
    cases i with
    | zero =>
      have ha : a = false := hf
      subst ha
      simp [List.set, countFalse]
    | succ n =>
      simp only [List.set, countFalse]
      have := ih n (by simpa using hlt) hf
      omega

theorem countFalse_vle (v w : List Bool) (hlen : v.length = w.length)
    (h : VLe v w) : countFalse w ≤ countFalse v := by
  induction v generalizing w with
  | nil =>
    cases w with
    | nil => exact Nat.le_refl _
    | cons b u => simp at hlen
  | cons a t ih =>
    cases w with
    | nil => simp at hlen
    | cons b u =>
      have htail : VLe t u := fun j hj => h (j + 1) hj
      have hrec := ih u (by simpa using hlen) htail
      have hhead : a = true → b = true := fun ha => h 0 (by simpa using ha)
      simp only [countFalse]
      cases a with
      | true =>
        have hb : b = true := hhead rfl
        subst hb
        simpa using hrec
      | false => cases b <;> simp <;> omega

theorem countFalse_replicate (n : Nat) :
    countFalse (List.replicate n false) = n := by
  induction n with
  | zero => rfl
  | succ m ih => simp [List.replicate, countFalse, ih, Nat.add_comm]

theorem walk_total {σ : Type} (prog : List EbpfInst) (f : Visitor σ) :
    ∀ (fuel : Nat) (s : σ) (off : Nat) (v : List Bool) (kind : WalkKind),
      off < prog.length → v.length = prog.length →
      (prog.length + 1) * countFalse (v.set off true) + (prog.length - off)
        < fuel →
      ∃ r, walkPaths fuel prog f s off v kind = some r := by
  intro fuel
  induction fuel with
  | zero =>
    intro s off v kind _ _ hfuel
    exact absurd hfuel (by omega)
  | succ fuel ih =>
    intro s off v kind hoff hlen hfuel
    rw [walkPaths]
    rcases hfv : f prog (instAt prog off) s off v with ⟨cmd, s1, d1⟩
    simp only []
    by_cases h1 : cmd ≠ WalkAction.cont
    · rw [if_pos h1]
      exact ⟨_, rfl⟩
    · rw [if_neg h1]
      by_cases h2 : (instAt prog off).opcode = EBPF_OP_EXIT
      · rw [if_pos h2]
        exact ⟨_, rfl⟩
      · rw [if_neg h2]
        have fallStep : ∀ (s2 : σ) (v2 : List Bool) (d2 : List Diag)
            (t2 : List TraceEntry),
            v2.length = prog.length →
            countFalse (v2.set (off + 1) true) ≤ countFalse (v.set off true) →
            ∃ r, (if (off : Int) = (prog.length : Int) - 1 then
                some (⟨WalkAction.cont, s2, v2, d2, t2⟩ : WalkResult σ)
              else
                match walkPaths fuel prog f s2 (off + 1) v2
                    WalkKind.fallThrough with
                | none => none
                | some r3 =>
                  some ⟨r3.action, r3.data, r3.visited, d2 ++ r3.diags,
                    t2 ++ r3.trace⟩) = some r := by
          intro s2 v2 d2 t2 h2len h2cnt
          by_cases hlast : (off : Int) = (prog.length : Int) - 1
          · rw [if_pos hlast]
            exact ⟨_, rfl⟩
          · rw [if_neg hlast]
            have hoff3 : off + 1 < prog.length := by omega
            have hmul : (prog.length + 1) * countFalse (v2.set (off + 1) true)
                ≤ (prog.length + 1) * countFalse (v.set off true) :=
              Nat.mul_le_mul_left _ h2cnt
            obtain ⟨r3, hr3⟩ := ih s2 (off + 1) v2 WalkKind.fallThrough hoff3 h2len
              (by omega)
            rw [hr3]
            exact ⟨_, rfl⟩
        by_cases h3 : isjmp (instAt prog off) = true
        · rw [if_pos h3]
          by_cases h4 : nextPc off (instAt prog off) = (off : Int)
          · rw [if_pos h4]
            exact ⟨_, rfl⟩
          · rw [if_neg h4]
            by_cases h5 : nextPc off (instAt prog off) < 0 ∨
                (prog.length : Int) - 1 < nextPc off (instAt prog off)
            · rw [if_pos h5]
              exact ⟨_, rfl⟩
            · rw [if_neg h5]
              by_cases h6 : (v.set off true).getD
                  (nextPc off (instAt prog off)).toNat false = false
              · rw [if_pos h6]
                have hnp : (nextPc off (instAt prog off)).toNat < prog.length := by
                  push_neg at h5
                  omega
                have hv1len : (v.set off true).length = prog.length := by
                  rw [List.length_set]; exact hlen
                have hcnt2 : countFalse ((v.set off true).set
                      (nextPc off (instAt prog off)).toNat true)
                    < countFalse (v.set off true) :=
                  countFalse_set_lt _ _ (by omega) h6
                have hmul : (prog.length + 1) *
                      (countFalse ((v.set off true).set
                        (nextPc off (instAt prog off)).toNat true) + 1)
                    ≤ (prog.length + 1) * countFalse (v.set off true) :=
                  Nat.mul_le_mul_left _ (by omega)
                rw [Nat.mul_add] at hmul
                obtain ⟨r2, hr2⟩ := ih s1 (nextPc off (instAt prog off)).toNat
                  (v.set off true) WalkKind.jumpEdge hnp hv1len (by omega)
                rw [hr2]
                simp only []
                by_cases h7 : r2.action = WalkAction.stop ∨
                    r2.action = WalkAction.invalid
                · rw [if_pos h7]
                  exact ⟨_, rfl⟩
                · rw [if_neg h7]
                  obtain ⟨hb1, hb2, _, _, _, _⟩ :=
                    walk_basic prog f fuel s1 (nextPc off (instAt prog off)).toNat
                      (v.set off true) WalkKind.jumpEdge r2 hr2 hnp hv1len
                  refine fallStep r2.data r2.visited _ _ hb1 ?_
                  calc countFalse (r2.visited.set (off + 1) true)
                      ≤ countFalse r2.visited := countFalse_set_le _ _
                    _ ≤ countFalse (v.set off true) :=
                        countFalse_vle _ _ (by rw [hv1len, hb1]) hb2
              · rw [if_neg h6]
                refine fallStep s1 (v.set off true) d1 _
                  (by rw [List.length_set]; exact hlen)
                  (countFalse_set_le _ _)
        · rw [if_neg h3]
          refine fallStep s1 (v.set off true) d1 _
            (by rw [List.length_set]; exact hlen)
            (countFalse_set_le _ _)

theorem ubpf_walk_start_total {σ : Type} (prog : List EbpfInst) (f : Visitor σ)
    (s : σ) (h : 1 ≤ prog.length) :
    ∃ r, ubpf_walk_start prog f s = some r := by
  unfold ubpf_walk_start
  apply walk_total prog f (walkFuel prog.length) s 0
    (List.replicate prog.length false) WalkKind.start h
    (by rw [List.length_replicate])
  have hget : (List.replicate prog.length false).getD 0 false = false := by
    obtain ⟨m, hm⟩ : ∃ m, prog.length = m + 1 := ⟨prog.length - 1, by omega⟩
    rw [hm]
    rfl
  have hlt : countFalse ((List.replicate prog.length false).set 0 true)
      < prog.length := by
    have := countFalse_set_lt (List.replicate prog.length false) 0
      (by rw [List.length_replicate]; omega) hget
    rw [countFalse_replicate] at this
    exact this
  have hmul : (prog.length + 1) *
        (countFalse ((List.replicate prog.length false).set 0 true) + 1)
      ≤ (prog.length + 1) * prog.length := Nat.mul_le_mul_left _ (by omega)
  rw [Nat.mul_add] at hmul
  have hsq : walkFuel prog.length
      = (prog.length + 1) * prog.length + (prog.length + 1) := by
    unfold walkFuel
    rw [Nat.mul_succ]
  rw [hsq]
  omega


theorem walk_bridge {σ : Type} (prog : List EbpfInst) (f : Visitor σ) :
    ∀ (fuel : Nat) (s : σ) (off : Nat) (v : List Bool) (kind : WalkKind)
      (r : WalkResult σ),
      walkPaths fuel prog f s off v kind = some r →
      off < prog.length → v.length = prog.length →
      ∀ (t1 : List TraceEntry) (e : TraceEntry) (t2 : List TraceEntry),
        r.trace = t1 ++ e :: t2 →
        ∀ j ∈ t1.map TraceEntry.off, e.snapshot.getD j false = true := by
  intro fuel
  induction fuel with
  | zero =>
    intro s off v kind r h _ _
    simp [walkPaths] at h
  | succ fuel ih =>
    intro s off v kind r h hoff hlen
    obtain ⟨cmd, s1, d1, hfv, hc⟩ := walk_succ_cases h
    have hv1len : (v.set off true).length = prog.length := by
      rw [List.length_set]; exact hlen
    have hv1off : (v.set off true).getD off false = true :=
      getD_set_pos v off (hlen ▸ hoff)
    -- splits of a one-entry trace are vacuous
    have single : ∀ (e0 : TraceEntry) (t1 : List TraceEntry) (e : TraceEntry)
        (t2 : List TraceEntry), [e0] = t1 ++ e :: t2 →
        ∀ j ∈ t1.map TraceEntry.off, e.snapshot.getD j false = true := by
      intro e0 t1 e t2 hsplit j hj
      cases t1 with
      | nil => simp at hj
      | cons a t1' =>
        rw [List.cons_append] at hsplit
        injection hsplit with h1 h2
        exact absurd h2 (by simp)
    -- splits of the trace of a descent through the jump edge
    have bridgeJump : ∀ (r2 : WalkResult σ),
        walkPaths fuel prog f s1 (nextPc off (instAt prog off)).toNat
          (v.set off true) WalkKind.jumpEdge = some r2 →
        (nextPc off (instAt prog off)).toNat < prog.length →
        ∀ (t1 : List TraceEntry) (e : TraceEntry) (t2 : List TraceEntry),
          TraceEntry.mk kind off v :: r2.trace = t1 ++ e :: t2 →
          ∀ j ∈ t1.map TraceEntry.off, e.snapshot.getD j false = true := by
      intro r2 hsub hnp t1 e t2 hsplit j hj
      cases t1 with
      | nil => simp at hj
      | cons a t1' =>
        rw [List.cons_append] at hsplit
        injection hsplit with h1 h2
        subst h1
        have hmem : e ∈ r2.trace := by
          rw [h2]
          exact List.mem_append_right t1' (List.mem_cons_self e t2)
        obtain ⟨_, _, _, hent2, _, _⟩ :=
          walk_basic prog f fuel s1 (nextPc off (instAt prog off)).toNat
            (v.set off true) WalkKind.jumpEdge r2 hsub hnp hv1len
        rw [List.map_cons, List.mem_cons] at hj
        rcases hj with hj | hj
        · have hgoal : e.snapshot.getD off false = true :=
            (hent2 e hmem).2.2 off hv1off
          rw [hj]
          exact hgoal
        · exact ih s1 (nextPc off (instAt prog off)).toNat (v.set off true)
            WalkKind.jumpEdge r2 hsub hnp hv1len t1' e t2 h2 j hj
    -- splits of the trace once a fall-through tail is appended
    have bridgeFall : ∀ (s2 : σ) (v2 : List Bool) (d2 : List Diag)
        (t2b : List TraceEntry),
        v2.length = prog.length →
        (∀ (t1 : List TraceEntry) (e : TraceEntry) (t2 : List TraceEntry),
          t2b = t1 ++ e :: t2 →
          ∀ j ∈ t1.map TraceEntry.off, e.snapshot.getD j false = true) →
        (∀ e ∈ t2b, v2.getD e.off false = true) →
        FallOut fuel prog f s2 v2 d2 t2b off r →
        ∀ (t1 : List TraceEntry) (e : TraceEntry) (t2 : List TraceEntry),
          r.trace = t1 ++ e :: t2 →
          ∀ j ∈ t1.map TraceEntry.off, e.snapshot.getD j false = true := by
      intro s2 v2 d2 t2b h2len hF1 hF2 hf t1 e t2 hsplit j hj
      rcases hf with ⟨hlast, hr⟩ | ⟨hlast, r3, hsub3, hr⟩
      · subst hr
        exact hF1 t1 e t2 hsplit j hj
      · have hoff3 : off + 1 < prog.length := by omega
        obtain ⟨_, _, hhead3, hent3, _, _⟩ :=
          walk_basic prog f fuel s2 (off + 1) v2 WalkKind.fallThrough r3
            hsub3 hoff3 h2len
        subst hr
        simp only [] at hsplit
        have hsplit2 : (∃ a', t1 = t2b ++ a' ∧ r3.trace = a' ++ e :: t2) ∨
            ∃ c', t2b = t1 ++ c' ∧ e :: t2 = c' ++ r3.trace := by
          rw [← List.append_eq_append_iff]
          exact hsplit
        rcases hsplit2 with ⟨a', ht1, hr3s⟩ | ⟨c', ht2b, hcs⟩
        · subst ht1
          rw [List.map_append, List.mem_append] at hj
          have hmem : e ∈ r3.trace := by
            rw [hr3s]
            exact List.mem_append_right a' (List.mem_cons_self e t2)
          rcases hj with hj | hj
          · obtain ⟨e', he'mem, he'off⟩ := List.mem_map.mp hj
            have hm2 : v2.getD j false = true := he'off ▸ hF2 e' he'mem
            exact (hent3 e hmem).2.2 j hm2
          · exact ih s2 (off + 1) v2 WalkKind.fallThrough r3 hsub3 hoff3 h2len
              a' e t2 hr3s j hj
        · cases c' with
          | nil =>
            rw [List.append_nil] at ht2b
            rw [List.nil_append] at hcs
            obtain ⟨t3, hhead3⟩ := hhead3
            have he : e = TraceEntry.mk WalkKind.fallThrough (off + 1) v2 := by
              rw [← hcs] at hhead3
              injection hhead3 with h1 _
            subst ht2b
            obtain ⟨e', he'mem, he'off⟩ := List.mem_map.mp hj
            rw [he]
            exact he'off ▸ hF2 e' he'mem
          | cons ec c'' =>
            rw [List.cons_append] at hcs
            injection hcs with h1 h2
            subst h1
            exact hF1 t1 e c'' ht2b j hj
    rcases hc with ⟨hcmd, hr⟩ | ⟨hcmd, hexit, hr⟩ |
      ⟨hcmd, hexit, hjmp, hself, hr⟩ |
      ⟨hcmd, hexit, hjmp, hself, hoob, hr⟩ |
      ⟨r2, hcmd, hexit, hjmp, hself, hoob, hunv, hsub, hstop, hr⟩ |
      ⟨r2, hcmd, hexit, hjmp, hself, hoob, hunv, hsub, hstop, hfall⟩ |
      ⟨hcmd, hexit, hjmp, hself, hoob, hunv, hfall⟩ |
      ⟨hcmd, hexit, hjmp, hfall⟩
    · subst hr; exact single _
    · subst hr; exact single _
    · subst hr; exact single _
    · subst hr; exact single _
    · subst hr
      have hnp : (nextPc off (instAt prog off)).toNat < prog.length := by
        push_neg at hoob
        omega
      exact bridgeJump r2 hsub hnp
    · have hnp : (nextPc off (instAt prog off)).toNat < prog.length := by
        push_neg at hoob
        omega
      obtain ⟨_, hle2, _, _, hmark2, _⟩ :=
        walk_basic prog f fuel s1 (nextPc off (instAt prog off)).toNat
          (v.set off true) WalkKind.jumpEdge r2 hsub hnp hv1len
      refine bridgeFall r2.data r2.visited (d1 ++ r2.diags)
        (TraceEntry.mk kind off v :: r2.trace)
        (walk_basic prog f fuel s1 (nextPc off (instAt prog off)).toNat
          (v.set off true) WalkKind.jumpEdge r2 hsub hnp hv1len).1
        (bridgeJump r2 hsub hnp) ?_ hfall
      intro e' he'
      rcases List.mem_cons.mp he' with he' | he'
      · subst he'
        exact hle2 off hv1off
      · exact hmark2 e' he'
    · refine bridgeFall s1 (v.set off true) d1 [TraceEntry.mk kind off v]
        hv1len (single _) ?_ hfall
      intro e' he'
      rw [List.mem_singleton] at he'
      subst he'
      exact hv1off
    · refine bridgeFall s1 (v.set off true) d1 [TraceEntry.mk kind off v]
        hv1len (single _) ?_ hfall
      intro e' he'
      rw [List.mem_singleton] at he'
      subst he'
      exact hv1off


theorem walk_jump_unmarked {σ : Type} (prog : List EbpfInst) (f : Visitor σ) :
    ∀ (fuel : Nat) (s : σ) (off : Nat) (v : List Bool) (kind : WalkKind)
      (r : WalkResult σ),
      walkPaths fuel prog f s off v kind = some r →
      (kind = WalkKind.jumpEdge → v.getD off false = false) →
      ∀ e ∈ r.trace, e.kind = WalkKind.jumpEdge →
        e.snapshot.getD e.off false = false := by
  intro fuel
  induction fuel with
  | zero =>
    intro s off v kind r h _
    simp [walkPaths] at h
  | succ fuel ih =>
    intro s off v kind r h hkv
    obtain ⟨cmd, s1, d1, hfv, hc⟩ := walk_succ_cases h
    have headCase : ∀ e, e = TraceEntry.mk kind off v →
        e.kind = WalkKind.jumpEdge → e.snapshot.getD e.off false = false := by
      intro e he hk
      subst he
      exact hkv hk
    have jumpTail : ∀ (r2 : WalkResult σ),
        walkPaths fuel prog f s1 (nextPc off (instAt prog off)).toNat
          (v.set off true) WalkKind.jumpEdge = some r2 →
        (v.set off true).getD (nextPc off (instAt prog off)).toNat false
          = false →
        ∀ e ∈ r2.trace, e.kind = WalkKind.jumpEdge →
          e.snapshot.getD e.off false = false := by
      intro r2 hsub hunv
      exact ih s1 (nextPc off (instAt prog off)).toNat (v.set off true)
        WalkKind.jumpEdge r2 hsub (fun _ => hunv)
    have fallTail : ∀ (s2 : σ) (v2 : List Bool) (d2 : List Diag)
        (t2b : List TraceEntry),
        (∀ e ∈ t2b, e.kind = WalkKind.jumpEdge →
          e.snapshot.getD e.off false = false) →
        FallOut fuel prog f s2 v2 d2 t2b off r →
        ∀ e ∈ r.trace, e.kind = WalkKind.jumpEdge →
          e.snapshot.getD e.off false = false := by
      intro s2 v2 d2 t2b hbase hf e he hk
      rcases hf with ⟨hlast, hr⟩ | ⟨hlast, r3, hsub3, hr⟩
      · subst hr
        exact hbase e he hk
      · subst hr
        simp only [] at he
        rcases List.mem_append.mp he with he | he
        · exact hbase e he hk
        · exact ih s2 (off + 1) v2 WalkKind.fallThrough r3 hsub3
            (fun hcon => absurd hcon (by simp)) e he hk
    rcases hc with ⟨hcmd, hr⟩ | ⟨hcmd, hexit, hr⟩ |
      ⟨hcmd, hexit, hjmp, hself, hr⟩ |
      ⟨hcmd, hexit, hjmp, hself, hoob, hr⟩ |
      ⟨r2, hcmd, hexit, hjmp, hself, hoob, hunv, hsub, hstop, hr⟩ |
      ⟨r2, hcmd, hexit, hjmp, hself, hoob, hunv, hsub, hstop, hfall⟩ |
      ⟨hcmd, hexit, hjmp, hself, hoob, hunv, hfall⟩ |
      ⟨hcmd, hexit, hjmp, hfall⟩
    · subst hr
      intro e he hk
      rw [List.mem_singleton] at he
      exact headCase e he hk
    · subst hr
      intro e he hk
      rw [List.mem_singleton] at he
      exact headCase e he hk
    · subst hr
      intro e he hk
      rw [List.mem_singleton] at he
      exact headCase e he hk
    · subst hr
      intro e he hk
      rw [List.mem_singleton] at he
      exact headCase e he hk
    · subst hr
      intro e he hk
      simp only [] at he
      rcases List.mem_cons.mp he with he | he
      · exact headCase e he hk
      · exact jumpTail r2 hsub hunv e he hk
    · refine fallTail r2.data r2.visited (d1 ++ r2.diags)
        (TraceEntry.mk kind off v :: r2.trace) ?_ hfall
      intro e he hk
      rcases List.mem_cons.mp he with he | he
      · exact headCase e he hk
      · exact jumpTail r2 hsub hunv e he hk
    · refine fallTail s1 (v.set off true) d1 [TraceEntry.mk kind off v] ?_ hfall
      intro e he hk
      rw [List.mem_singleton] at he
      exact headCase e he hk
    · refine fallTail s1 (v.set off true) d1 [TraceEntry.mk kind off v] ?_ hfall
      intro e he hk
      rw [List.mem_singleton] at he
      exact headCase e he hk


theorem walk_loop_fire (prog : List EbpfInst) :
    ∀ (fuel : Nat) (s : Unit) (off : Nat) (v : List Bool) (kind : WalkKind)
      (r : WalkResult Unit),
      walkPaths fuel prog _walker_no_loops_or_dead_insts s off v kind = some r →
      ∀ e ∈ r.trace,
        loopVisitorProbes (instAt prog e.off) e.off = true →
        visitedAtInt e.snapshot (nextPc e.off (instAt prog e.off)) = true →
        r.action = WalkAction.stop ∧ Diag.loopDetected e.off ∈ r.diags := by
  intro fuel
  induction fuel with
  | zero =>
    intro s off v kind r h
    simp [walkPaths] at h
  | succ fuel ih =>
    intro s off v kind r h
    obtain ⟨cmd, s1, d1, hfv, hc⟩ := walk_succ_cases h
    have headFire : ∀ e, e = TraceEntry.mk kind off v →
        loopVisitorProbes (instAt prog e.off) e.off = true →
        visitedAtInt e.snapshot (nextPc e.off (instAt prog e.off)) = true →
        cmd = WalkAction.stop ∧ d1 = [Diag.loopDetected off] := by
      intro e he hp hvz
      subst he
      have hp' : loopVisitorProbes (instAt prog off) off = true := hp
      have hv' : visitedAtInt v (nextPc off (instAt prog off)) = true := hvz
      have hcond : (loopVisitorProbes (instAt prog off) off
          && visitedAtInt v (nextPc off (instAt prog off))) = true := by
        rw [hp', hv']
        rfl
      rw [_walker_no_loops_or_dead_insts] at hfv
      rw [if_pos hcond] at hfv
      injection hfv with h1 h2
      injection h2 with h2 h3
      exact ⟨h1.symm, h3.symm⟩
    rcases hc with ⟨hcmd, hr⟩ | ⟨hcmd, hexit, hr⟩ |
      ⟨hcmd, hexit, hjmp, hself, hr⟩ |
      ⟨hcmd, hexit, hjmp, hself, hoob, hr⟩ |
      ⟨r2, hcmd, hexit, hjmp, hself, hoob, hunv, hsub, hstop, hr⟩ |
      ⟨r2, hcmd, hexit, hjmp, hself, hoob, hunv, hsub, hstop, hfall⟩ |
      ⟨hcmd, hexit, hjmp, hself, hoob, hunv, hfall⟩ |
      ⟨hcmd, hexit, hjmp, hfall⟩
    · subst hr
      intro e he hp hvz
      rw [List.mem_singleton] at he
      obtain ⟨hstop, hd⟩ := headFire e he hp hvz
      subst hstop
      refine ⟨rfl, ?_⟩
      rw [hd, he]
      exact List.mem_singleton_self _
    · subst hr
      intro e he hp hvz
      rw [List.mem_singleton] at he
      obtain ⟨hstop, _⟩ := headFire e he hp hvz
      exact absurd (hcmd ▸ hstop) (by simp)
    · subst hr
      intro e he hp hvz
      rw [List.mem_singleton] at he
      obtain ⟨hstop, _⟩ := headFire e he hp hvz
      exact absurd (hcmd ▸ hstop) (by simp)
    · subst hr
      intro e he hp hvz
      rw [List.mem_singleton] at he
      obtain ⟨hstop, _⟩ := headFire e he hp hvz
      exact absurd (hcmd ▸ hstop) (by simp)
    · subst hr
      intro e he hp hvz
      simp only [] at he
      rcases List.mem_cons.mp he with he | he
      · obtain ⟨hstop, _⟩ := headFire e he hp hvz
        exact absurd (hcmd ▸ hstop) (by simp)
      · obtain ⟨ha, hd⟩ := ih s1 (nextPc off (instAt prog off)).toNat
          (v.set off true) WalkKind.jumpEdge r2 hsub e he hp hvz
        exact ⟨ha, List.mem_append_right d1 hd⟩
    · have tailJump : ∀ e ∈ r2.trace,
          loopVisitorProbes (instAt prog e.off) e.off = true →
          visitedAtInt e.snapshot (nextPc e.off (instAt prog e.off)) = true →
          False := by
        intro e he hp hvz
        obtain ⟨ha, _⟩ := ih s1 (nextPc off (instAt prog off)).toNat
          (v.set off true) WalkKind.jumpEdge r2 hsub e he hp hvz
        exact hstop (Or.inl ha)
      rcases hfall with ⟨hlast, hr⟩ | ⟨hlast, r3, hsub3, hr⟩
      · subst hr
        intro e he hp hvz
        rcases List.mem_cons.mp he with he | he
        · obtain ⟨hstop2, _⟩ := headFire e he hp hvz
          exact absurd (hcmd ▸ hstop2) (by simp)
        · exact (tailJump e he hp hvz).elim
      · subst hr
        intro e he hp hvz
        simp only [] at he
        rcases List.mem_append.mp he with he | he
        · rcases List.mem_cons.mp he with he | he
          · obtain ⟨hstop2, _⟩ := headFire e he hp hvz
            exact absurd (hcmd ▸ hstop2) (by simp)
          · exact (tailJump e he hp hvz).elim
        · obtain ⟨ha, hd⟩ := ih r2.data (off + 1) r2.visited
            WalkKind.fallThrough r3 hsub3 e he hp hvz
          exact ⟨ha, List.mem_append_right _ hd⟩
    · rcases hfall with ⟨hlast, hr⟩ | ⟨hlast, r3, hsub3, hr⟩
      · subst hr
        intro e he hp hvz
        rw [List.mem_singleton] at he
        obtain ⟨hstop2, _⟩ := headFire e he hp hvz
        exact absurd (hcmd ▸ hstop2) (by simp)
      · subst hr
        intro e he hp hvz
        simp only [] at he
        rcases List.mem_append.mp he with he | he
        · rw [List.mem_singleton] at he
          obtain ⟨hstop2, _⟩ := headFire e he hp hvz
          exact absurd (hcmd ▸ hstop2) (by simp)
        · obtain ⟨ha, hd⟩ := ih s1 (off + 1) (v.set off true)
            WalkKind.fallThrough r3 hsub3 e he hp hvz
          exact ⟨ha, List.mem_append_right _ hd⟩
    · rcases hfall with ⟨hlast, hr⟩ | ⟨hlast, r3, hsub3, hr⟩
      · subst hr
        intro e he hp hvz
        rw [List.mem_singleton] at he
        obtain ⟨hstop2, _⟩ := headFire e he hp hvz
        exact absurd (hcmd ▸ hstop2) (by simp)
      · subst hr
        intro e he hp hvz
        simp only [] at he
        rcases List.mem_append.mp he with he | he
        · rw [List.mem_singleton] at he
          obtain ⟨hstop2, _⟩ := headFire e he hp hvz
          exact absurd (hcmd ▸ hstop2) (by simp)
        · obtain ⟨ha, hd⟩ := ih s1 (off + 1) (v.set off true)
            WalkKind.fallThrough r3 hsub3 e he hp hvz
          exact ⟨ha, List.mem_append_right _ hd⟩


theorem walk_badjump {σ : Type} (prog : List EbpfInst) (f : Visitor σ) :
    ∀ (fuel : Nat) (s : σ) (off : Nat) (v : List Bool) (kind : WalkKind)
      (r : WalkResult σ),
      walkPaths fuel prog f s off v kind = some r →
      ∀ e ∈ r.trace,
        isjmp (instAt prog e.off) = true →
        (instAt prog e.off).opcode ≠ EBPF_OP_EXIT →
        (nextPc e.off (instAt prog e.off) = (e.off : Int) ∨
          nextPc e.off (instAt prog e.off) < 0 ∨
          (prog.length : Int) - 1 < nextPc e.off (instAt prog e.off)) →
        r.action = WalkAction.stop ∨ r.action = WalkAction.invalid := by
  intro fuel
  induction fuel with
  | zero =>
    intro s off v kind r h
    simp [walkPaths] at h
  | succ fuel ih =>
    intro s off v kind r h
    obtain ⟨cmd, s1, d1, hfv, hc⟩ := walk_succ_cases h
    rcases hc with ⟨hcmd, hr⟩ | ⟨hcmd, hexit, hr⟩ |
      ⟨hcmd, hexit, hjmp, hself, hr⟩ |
      ⟨hcmd, hexit, hjmp, hself, hoob, hr⟩ |
      ⟨r2, hcmd, hexit, hjmp, hself, hoob, hunv, hsub, hstop, hr⟩ |
      ⟨r2, hcmd, hexit, hjmp, hself, hoob, hunv, hsub, hstop, hfall⟩ |
      ⟨hcmd, hexit, hjmp, hself, hoob, hunv, hfall⟩ |
      ⟨hcmd, hexit, hjmp, hfall⟩
    · subst hr
      intro e he hj hx hbad
      cases cmd with
      | cont => exact absurd rfl hcmd
      | stop => exact Or.inl rfl
      | invalid => exact Or.inr rfl
    · subst hr
      intro e he hj hx hbad
      rw [List.mem_singleton] at he
      subst he
      exact absurd hexit hx
    · subst hr
      intro e he hj hx hbad
      exact Or.inr rfl
    · subst hr
      intro e he hj hx hbad
      exact Or.inr rfl
    · subst hr
      intro e he hj hx hbad
      simp only [] at he
      rcases List.mem_cons.mp he with he | he
      · subst he
        rcases hbad with hbad | hbad | hbad
        · exact absurd hbad hself
        · exact absurd (Or.inl hbad) hoob
        · exact absurd (Or.inr hbad) hoob
      · rcases ih s1 (nextPc off (instAt prog off)).toNat (v.set off true)
            WalkKind.jumpEdge r2 hsub e he hj hx hbad with ha | ha
        · exact Or.inl ha
        · exact Or.inr ha
    · have tailJump : ∀ e ∈ r2.trace,
          isjmp (instAt prog e.off) = true →
          (instAt prog e.off).opcode ≠ EBPF_OP_EXIT →
          (nextPc e.off (instAt prog e.off) = (e.off : Int) ∨
            nextPc e.off (instAt prog e.off) < 0 ∨
            (prog.length : Int) - 1 < nextPc e.off (instAt prog e.off)) →
          False := by
        intro e he hj hx hbad
        exact hstop (ih s1 (nextPc off (instAt prog off)).toNat (v.set off true)
          WalkKind.jumpEdge r2 hsub e he hj hx hbad)
      have headBad : ∀ e, e = TraceEntry.mk kind off v →
          (nextPc e.off (instAt prog e.off) = (e.off : Int) ∨
            nextPc e.off (instAt prog e.off) < 0 ∨
            (prog.length : Int) - 1 < nextPc e.off (instAt prog e.off)) →
          False := by
        intro e he hbad
        subst he
        rcases hbad with hbad | hbad | hbad
        · exact hself hbad
        · exact hoob (Or.inl hbad)
        · exact hoob (Or.inr hbad)
      rcases hfall with ⟨hlast, hr⟩ | ⟨hlast, r3, hsub3, hr⟩
      · subst hr
        intro e he hj hx hbad
        rcases List.mem_cons.mp he with he | he
        · exact (headBad e he hbad).elim
        · exact (tailJump e he hj hx hbad).elim
      · subst hr
        intro e he hj hx hbad
        simp only [] at he
        rcases List.mem_append.mp he with he | he
        · rcases List.mem_cons.mp he with he | he
          · exact (headBad e he hbad).elim
          · exact (tailJump e he hj hx hbad).elim
        · exact ih r2.data (off + 1) r2.visited WalkKind.fallThrough r3 hsub3
            e he hj hx hbad
    · have headBad : ∀ e, e = TraceEntry.mk kind off v →
          (nextPc e.off (instAt prog e.off) = (e.off : Int) ∨
            nextPc e.off (instAt prog e.off) < 0 ∨
            (prog.length : Int) - 1 < nextPc e.off (instAt prog e.off)) →
          False := by
        intro e he hbad
        subst he
        rcases hbad with hbad | hbad | hbad
        · exact hself hbad
        · exact hoob (Or.inl hbad)
        · exact hoob (Or.inr hbad)
      rcases hfall with ⟨hlast, hr⟩ | ⟨hlast, r3, hsub3, hr⟩
      · subst hr
        intro e he hj hx hbad
        rw [List.mem_singleton] at he
        exact (headBad e he hbad).elim
      · subst hr
        intro e he hj hx hbad
        simp only [] at he
        rcases List.mem_append.mp he with he | he
        · rw [List.mem_singleton] at he
          exact (headBad e he hbad).elim
        · exact ih s1 (off + 1) (v.set off true) WalkKind.fallThrough r3 hsub3
            e he hj hx hbad
    · rcases hfall with ⟨hlast, hr⟩ | ⟨hlast, r3, hsub3, hr⟩
      · subst hr
        intro e he hj hx hbad
        rw [List.mem_singleton] at he
        subst he
        exact absurd hj hjmp
      · subst hr
        intro e he hj hx hbad
        simp only [] at he
        rcases List.mem_append.mp he with he | he
        · rw [List.mem_singleton] at he
          subst he
          exact absurd hj hjmp
        · exact ih s1 (off + 1) (v.set off true) WalkKind.fallThrough r3 hsub3
            e he hj hx hbad


theorem getD_replicate_false (n j : Nat) :
    (List.replicate n false).getD j false = false := by
  induction n generalizing j with
  | zero => rfl
  | succ m ih =>
    cases j with
    | zero => rfl
    | succ i => exact ih i

theorem deadOffsets_mem (n : Nat) (v : List Bool) (k : Nat) (hk : k < n)
    (hv : v.getD k false = false) : k ∈ deadOffsets n v := by
  unfold deadOffsets
  rw [List.mem_filter]
  exact ⟨List.mem_range.mpr hk, by rw [hv]; rfl⟩

theorem pass1_reject (prog : List EbpfInst) (r : WalkResult Unit)
    (hr : ubpf_walk_start prog _walker_no_loops_or_dead_insts () = some r)
    (hfail : r.action = WalkAction.stop ∨ r.action = WalkAction.invalid ∨
      deadOffsets prog.length r.visited ≠ []) :
    ubpf_verify prog
      = some (1, r.diags ++ (deadOffsets prog.length r.visited).map Diag.deadInst) := by
  unfold ubpf_walk_start at hr
  unfold ubpf_verify ubpf_verify_no_loops_or_dead_insts
  rw [hr]
  simp only []
  have hcode : (r.action.code |||
      (if deadOffsets prog.length r.visited = [] then 0 else 1)) ≠ 0 := by
    by_cases hd : deadOffsets prog.length r.visited = []
    · rw [if_pos hd]
      rcases hfail with ha | ha | ha
      · rw [ha]; decide
      · rw [ha]; decide
      · exact absurd hd ha
    · rw [if_neg hd]
      cases r.action <;> decide
  rw [if_pos hcode]


/-- C1 (counterexample): the walker does not enter each offset at most once.
In the program `jeq +0; exit` the jump edge of offset 0 and its fall-through
edge both lead to offset 1, and the fall-through descent is not guarded by
the visited set, so the visitor is invoked at offset 1 twice: the walk's
entered-offset sequence is `[0, 1, 1]`, which has a duplicate. -/
theorem claim_C1_counterexample :
    (ubpf_walk_start progJumpMerge _walker_no_loops_or_dead_insts ()).map
        (fun r => r.trace.map TraceEntry.off) = some [0, 1, 1]
    ∧ decide (List.Nodup ([0, 1, 1] : List Nat)) = false := ⟨rfl, rfl⟩

/-- C1 (amended): once an offset has been marked in the visited set, no later
step of the same walk descends into it via a JUMP edge: every jump-edge
entry in the walk's trace is to an offset that no earlier step (of any kind)
had entered.  The fall-through edge, by contrast, is not guarded and may
re-enter a marked offset. -/
theorem claim_C1 {σ : Type} (prog : List EbpfInst) (f : Visitor σ) (s : σ)
    (r : WalkResult σ) (t1 : List TraceEntry) (e : TraceEntry)
    (t2 : List TraceEntry) (hn : 1 ≤ prog.length)
    (hr : ubpf_walk_start prog f s = some r)
    (hsplit : r.trace = t1 ++ e :: t2)
    (hkind : e.kind = WalkKind.jumpEdge) :
    decide (e.off ∈ t1.map TraceEntry.off) = false := by
  rw [decide_eq_false_iff_not]
  intro hmem
  unfold ubpf_walk_start at hr
  have hunm := walk_jump_unmarked prog f (walkFuel prog.length) s 0
    (List.replicate prog.length false) WalkKind.start r hr
    (fun _ => getD_replicate_false _ _) e
    (by rw [hsplit]; exact List.mem_append_right _ (List.mem_cons_self _ _))
    hkind
  have hmk := walk_bridge prog f (walkFuel prog.length) s 0
    (List.replicate prog.length false) WalkKind.start r hr (by omega)
    (by rw [List.length_replicate]) t1 e t2 hsplit e.off hmem
  rw [hunm] at hmk
  cases hmk

/-- C1 (witness): in the walk of `jeq +0; exit`, the jump-edge entry of
offset 1 is not preceded by any earlier entry of offset 1. -/
theorem claim_C1_witness :
    decide (TraceEntry.off ⟨WalkKind.jumpEdge, 1, [true, false]⟩ ∈
      ([⟨WalkKind.start, 0, [false, false]⟩] : List TraceEntry).map
        TraceEntry.off) = false :=
  claim_C1 progJumpMerge _walker_no_loops_or_dead_insts ()
    ⟨WalkAction.cont, (), [true, true], [],
      [⟨WalkKind.start, 0, [false, false]⟩,
        ⟨WalkKind.jumpEdge, 1, [true, false]⟩,
        ⟨WalkKind.fallThrough, 1, [true, true]⟩]⟩
    [⟨WalkKind.start, 0, [false, false]⟩]
    ⟨WalkKind.jumpEdge, 1, [true, false]⟩
    [⟨WalkKind.fallThrough, 1, [true, true]⟩]
    (by decide) rfl rfl rfl

/-- C2 (counterexample): `verify` does not accept the one-instruction
program `[exit]`: the exit opcode is classified as reading its source
register field (register 0, the return-value convention), register 0 is not
pre-initialized, so the register pass stops and `verify` returns 1 with an
uninitialized-register diagnostic. -/
theorem claim_C2_counterexample :
    ubpf_verify progExit = some (1, [Diag.uninitReg 0 0]) := rfl

/-- C2 (amended): on the program `[exit]` the loop/dead-code pass succeeds
(the walk reaches exit, terminates, and no offset is dead), but the
uninitialized-register pass flags register 0 (exit reads the return
register, which starts uninitialized), so `verify` rejects with return
value 1 and the diagnostic `uninitialized register r0 accessed at
offset 0`. -/
theorem claim_C2 :
    ubpf_verify_no_loops_or_dead_insts progExit = some (0, [])
    ∧ ubpf_verify_no_uninit_regs progExit = some (1, [Diag.uninitReg 0 0])
    ∧ verifyCode progExit = some 1
    ∧ verifyDiags progExit = [Diag.uninitReg 0 0] := ⟨rfl, rfl, rfl, rfl⟩

/-- C3: if the walk of the loop/dead pass enters a jump whose computed
target is strictly less than the jump's own offset and some earlier step of
the same walk already entered that target, then `verify` rejects the
program and a loop diagnostic naming the jump's offset is emitted. -/
theorem claim_C3 (prog : List EbpfInst) (r : WalkResult Unit)
    (t1 : List TraceEntry) (e : TraceEntry) (t2 : List TraceEntry)
    (hr : ubpf_walk_start prog _walker_no_loops_or_dead_insts () = some r)
    (hsplit : r.trace = t1 ++ e :: t2)
    (hj : isjmp (instAt prog e.off) = true)
    (hback : nextPc e.off (instAt prog e.off) < (e.off : Int))
    (hearlier : ∃ e1 ∈ t1, (e1.off : Int) = nextPc e.off (instAt prog e.off)) :
    verifyCode prog = some 1 ∧ Diag.loopDetected e.off ∈ verifyDiags prog := by
  have hn : 1 ≤ prog.length := by
    cases prog with
    | nil =>
      rw [show ubpf_walk_start ([] : List EbpfInst)
          _walker_no_loops_or_dead_insts () = none from rfl] at hr
      cases hr
    | cons a l => simp
  have hrw := hr
  unfold ubpf_walk_start at hrw
  obtain ⟨e1, he1, he1off⟩ := hearlier
  have hjmem : e ∈ r.trace := by
    rw [hsplit]
    exact List.mem_append_right _ (List.mem_cons_self _ _)
  have he1mem : e1.off ∈ t1.map TraceEntry.off := List.mem_map_of_mem _ he1
  have hmarked := walk_bridge prog _walker_no_loops_or_dead_insts
    (walkFuel prog.length) () 0 (List.replicate prog.length false)
    WalkKind.start r hrw (by omega) (by rw [List.length_replicate])
    t1 e t2 hsplit e1.off he1mem
  have hvis : visitedAtInt e.snapshot
      (nextPc e.off (instAt prog e.off)) = true := by
    rw [← he1off]
    unfold visitedAtInt
    rw [if_pos (Int.natCast_nonneg e1.off),
      (by omega : ((e1.off : Int)).toNat = e1.off)]
    exact hmarked
  have hprobe : loopVisitorProbes (instAt prog e.off) e.off = true := by
    unfold loopVisitorProbes
    rw [hj]
    simp only [Bool.true_and]
    exact decide_eq_true hback
  obtain ⟨hstop, hdiag⟩ := walk_loop_fire prog (walkFuel prog.length) () 0
    (List.replicate prog.length false) WalkKind.start r hrw e hjmem hprobe hvis
  have hv := pass1_reject prog r hr (Or.inl hstop)
  constructor
  · unfold verifyCode
    rw [hv]
    rfl
  · unfold verifyDiags
    rw [hv]
    exact List.mem_append_left _ hdiag

/-- C3 (witness): the program `ja +0; ja -2` is rejected: the jump at
offset 1 targets offset 0, which is backward and was entered first, and a
loop diagnostic at offset 1 is emitted. -/
theorem claim_C3_witness :
    verifyCode progLoop = some 1
    ∧ Diag.loopDetected (TraceEntry.off ⟨WalkKind.jumpEdge, 1, [true, false]⟩)
      ∈ verifyDiags progLoop :=
  claim_C3 progLoop
    ⟨WalkAction.stop, (), [true, true], [Diag.loopDetected 1],
      [⟨WalkKind.start, 0, [false, false]⟩,
        ⟨WalkKind.jumpEdge, 1, [true, false]⟩]⟩
    [⟨WalkKind.start, 0, [false, false]⟩]
    ⟨WalkKind.jumpEdge, 1, [true, false]⟩
    [] rfl rfl (by decide) (by decide)
    ⟨⟨WalkKind.start, 0, [false, false]⟩, by decide, by decide⟩

/-- C4: the reads-source-register classifier `uses_src` returns true for an
instruction exactly under the condition the spec states: the opcode is
exit; or the class is store-indexed or load-indexed; or the class is ALU
32-bit, ALU 64-bit or jump, the source-is-register bit is set, and the
opcode is none of the seven exceptions. -/
theorem claim_C4 (inst : EbpfInst) :
    uses_src inst = true ↔ readsSourceRegisterSpec inst := by
  unfold uses_src readsSourceRegisterSpec
  simp only [beq_iff_eq, Bool.or_eq_true, Bool.and_eq_true, bne_iff_ne, ne_eq,
    decide_eq_true_eq]
  split_ifs with h1 h2 h3 h4 <;> simp_all <;> tauto


/-- Helper for C5: an instruction that writes its destination register is
not the call opcode (call is jump-class, and jump-class never sets the
destination). -/
theorem sets_dst_ne_call (inst : EbpfInst) (h : sets_dst inst = true)
    (hc : inst.opcode = EBPF_OP_CALL) : False := by
  rw [sets_dst, hc] at h
  exact absurd h (by decide)

/-- C5: the uninitialized-register pass behaves as specified: (a) the
initial bitmap marks exactly registers 1 and 10; (b) a register-register
XOR (32- or 64-bit) with source = destination marks the destination and is
never flagged; (c) otherwise a read of an unmarked source register stops
the walk with a diagnostic naming that register and offset; (d) otherwise
an instruction that writes its destination marks it; (e) a call marks
register 0. -/
theorem claim_C5 :
    (∀ k : Nat, initRegInit.getD k false = true ↔ (k = 1 ∨ k = 10)) ∧
    (∀ (prog : List EbpfInst) (inst : EbpfInst) (regs : List Bool)
      (off : Nat) (v : List Bool),
      (inst.opcode = EBPF_OP_XOR_REG ∨ inst.opcode = EBPF_OP_XOR64_REG) →
      inst.dst = inst.src →
      _walker_no_uninit_regs prog inst regs off v
        = (WalkAction.cont, regs.set inst.dst true, [])) ∧
    (∀ (prog : List EbpfInst) (inst : EbpfInst) (regs : List Bool)
      (off : Nat) (v : List Bool),
      ¬ (((inst.opcode = EBPF_OP_XOR_REG) ∨ (inst.opcode = EBPF_OP_XOR64_REG))
        ∧ inst.dst = inst.src) →
      uses_src inst = true →
      regs.getD inst.src false = false →
      _walker_no_uninit_regs prog inst regs off v
        = (WalkAction.stop, regs, [Diag.uninitReg inst.src off])) ∧
    (∀ (prog : List EbpfInst) (inst : EbpfInst) (regs : List Bool)
      (off : Nat) (v : List Bool),
      ¬ (((inst.opcode = EBPF_OP_XOR_REG) ∨ (inst.opcode = EBPF_OP_XOR64_REG))
        ∧ inst.dst = inst.src) →
      ¬ (uses_src inst = true ∧ regs.getD inst.src false = false) →
      sets_dst inst = true →
      _walker_no_uninit_regs prog inst regs off v
        = (WalkAction.cont, regs.set inst.dst true, [])) ∧
    (∀ (prog : List EbpfInst) (inst : EbpfInst) (regs : List Bool)
      (off : Nat) (v : List Bool),
      inst.opcode = EBPF_OP_CALL →
      _walker_no_uninit_regs prog inst regs off v
        = (WalkAction.cont, regs.set 0 true, [])) := by
  refine ⟨?_, ?_, ?_, ?_, ?_⟩
  · have hb : ∀ k, k < 16 →
        (initRegInit.getD k false = true ↔ (k = 1 ∨ k = 10)) := by decide
    intro k
    by_cases hk : k < 16
    · exact hb k hk
    · have hlen : initRegInit.length ≤ k := by
        have : initRegInit.length = 16 := by decide
        omega
      rw [List.getD_eq_default _ _ hlen]
      constructor
      · intro h
        exact absurd h (by simp)
      · intro h
        omega
  · intro prog inst regs off v hop hds
    have hnc : ¬ inst.opcode = EBPF_OP_CALL := by
      rcases hop with h | h <;> rw [h] <;> decide
    simp only [_walker_no_uninit_regs]
    rw [if_pos ⟨hop, hds⟩]
    simp only []
    rw [if_neg hnc]
  · intro prog inst regs off v hsp hus hun
    simp only [_walker_no_uninit_regs]
    rw [if_neg hsp, if_pos ⟨hus, hun⟩]
  · intro prog inst regs off v hsp hnr hsd
    have hnc : ¬ inst.opcode = EBPF_OP_CALL :=
      fun hc => sets_dst_ne_call inst hsd hc
    simp only [_walker_no_uninit_regs]
    rw [if_neg hsp, if_neg hnr, if_pos hsd]
    simp only []
    rw [if_neg hnc]
  · intro prog inst regs off v hc
    have hsp : ¬ (((inst.opcode = EBPF_OP_XOR_REG)
        ∨ (inst.opcode = EBPF_OP_XOR64_REG)) ∧ inst.dst = inst.src) := by
      rw [hc]
      intro h
      rcases h.1 with h1 | h1 <;> exact absurd h1 (by decide)
    have hu : uses_src inst = false := by
      unfold uses_src
      rw [hc]
      decide
    have hs : sets_dst inst = false := by
      unfold sets_dst
      rw [hc]
      decide
    simp only [_walker_no_uninit_regs]
    rw [if_neg hsp, if_neg (by rw [hu]; rintro ⟨h, -⟩; cases h),
      if_neg (by rw [hs]; rintro h; cases h)]
    simp only []
    rw [if_pos hc]

/-- C5 (witness): concrete instances of each component: the initial bitmap
at registers 1, 2 and 10; `xor64 r3, r3` marks r3; `add64 r0 += r3` on the
initial bitmap is flagged as an uninitialized read of r3; `mov64 r0, r1`
marks r0; `call` marks r0. -/
theorem claim_C5_witness :
    (initRegInit.getD 1 false = true ↔ ((1 : Nat) = 1 ∨ (1 : Nat) = 10))
    ∧ (_walker_no_uninit_regs progExit ⟨EBPF_OP_XOR64_REG, 3, 3, 0, 0⟩
        initRegInit 0 [false]
      = (WalkAction.cont, initRegInit.set 3 true, []))
    ∧ (_walker_no_uninit_regs progExit ⟨0x0f, 0, 3, 0, 0⟩ initRegInit 1 [false]
      = (WalkAction.stop, initRegInit, [Diag.uninitReg 3 1]))
    ∧ (_walker_no_uninit_regs progExit ⟨EBPF_OP_MOV64_REG, 0, 1, 0, 0⟩
        initRegInit 2 [false]
      = (WalkAction.cont, initRegInit.set 0 true, []))
    ∧ (_walker_no_uninit_regs progExit ⟨EBPF_OP_CALL, 0, 0, 0, 1⟩
        initRegInit 3 [false]
      = (WalkAction.cont, initRegInit.set 0 true, [])) :=
  ⟨claim_C5.1 1,
    claim_C5.2.1 progExit ⟨EBPF_OP_XOR64_REG, 3, 3, 0, 0⟩ initRegInit 0 [false]
      (Or.inr rfl) rfl,
    claim_C5.2.2.1 progExit ⟨0x0f, 0, 3, 0, 0⟩ initRegInit 1 [false]
      (by decide) (by decide) (by decide),
    claim_C5.2.2.2.1 progExit ⟨EBPF_OP_MOV64_REG, 0, 1, 0, 0⟩ initRegInit 2
      [false] (by decide) (by decide) (by decide),
    claim_C5.2.2.2.2 progExit ⟨EBPF_OP_CALL, 0, 0, 0, 1⟩ initRegInit 3 [false]
      rfl⟩


/-- C6 (counterexample): the program `exit; ja -1` contains a self-jump at
offset 1, and `verify` does reject it, but no jump-to-self diagnostic is
emitted: the jump is unreachable, the walk never enters it, and the only
diagnostic is `dead instruction at offset 1`. -/
theorem claim_C6_counterexample :
    ubpf_verify progDeadSelfJump = some (1, [Diag.deadInst 1])
    ∧ decide (Diag.jumpToSelf 1 ∈ [Diag.deadInst 1]) = false := ⟨rfl, rfl⟩

/-- C6 (amended): for every program containing a non-exit-opcode jump at
offset `k` whose relative offset is -1 (a self-jump) or whose computed
target is negative or at least the program length, `verify` rejects the
program — regardless of whether that jump is reachable.  (The jump-to-self
or out-of-bounds diagnostic itself is only emitted when the walk enters
offset `k`; an unreachable such jump is reported as a dead instruction
instead, as the counterexample shows.) -/
theorem claim_C6 (prog : List EbpfInst) (k : Nat) (hk : k < prog.length)
    (hj : isjmp (instAt prog k) = true)
    (hx : (instAt prog k).opcode ≠ EBPF_OP_EXIT)
    (hbad : (instAt prog k).offset = -1 ∨ nextPc k (instAt prog k) < 0 ∨
      (prog.length : Int) - 1 < nextPc k (instAt prog k)) :
    verifyCode prog = some 1 := by
  obtain ⟨r, hr⟩ := ubpf_walk_start_total prog _walker_no_loops_or_dead_insts ()
    (by omega)
  have hrw := hr
  unfold ubpf_walk_start at hrw
  have hbad' : nextPc k (instAt prog k) = (k : Int) ∨
      nextPc k (instAt prog k) < 0 ∨
      (prog.length : Int) - 1 < nextPc k (instAt prog k) := by
    rcases hbad with hb | hb | hb
    · left
      unfold nextPc
      rw [hb]
      omega
    · exact Or.inr (Or.inl hb)
    · exact Or.inr (Or.inr hb)
  by_cases hmem : ∃ e ∈ r.trace, e.off = k
  · obtain ⟨e, he, hek⟩ := hmem
    subst hek
    have hfail := walk_badjump prog _walker_no_loops_or_dead_insts
      (walkFuel prog.length) () 0 (List.replicate prog.length false)
      WalkKind.start r hrw e he hj hx hbad'
    have hv := pass1_reject prog r hr
      (by rcases hfail with ha | ha
          · exact Or.inl ha
          · exact Or.inr (Or.inl ha))
    unfold verifyCode
    rw [hv]
    rfl
  · push_neg at hmem
    obtain ⟨_, _, _, _, _, hA6⟩ := walk_basic prog
      _walker_no_loops_or_dead_insts (walkFuel prog.length) () 0
      (List.replicate prog.length false) WalkKind.start r hrw (by omega)
      (by rw [List.length_replicate])
    have hkfalse : r.visited.getD k false = false := by
      cases hval : r.visited.getD k false with
      | false => rfl
      | true =>
        rcases hA6 k hval with hcon | hcon
        · rw [getD_replicate_false] at hcon
          cases hcon
        · obtain ⟨e, he, hek⟩ := List.mem_map.mp hcon
          exact absurd hek (hmem e he)
    have hdead : deadOffsets prog.length r.visited ≠ [] :=
      List.ne_nil_of_mem (deadOffsets_mem _ _ k hk hkfalse)
    have hv := pass1_reject prog r hr (Or.inr (Or.inr hdead))
    unfold verifyCode
    rw [hv]
    rfl

/-- C6 (witness): the one-instruction program `ja -1` (a reachable
self-jump at offset 0) is rejected by `verify`. -/
theorem claim_C6_witness : verifyCode progSelfJump = some 1 :=
  claim_C6 progSelfJump 0 (by decide) (by decide) (by decide)
    (Or.inl (by decide))

/-- C7 (counterexample): `verify` does not accept the four-instruction
diamond of spec scenario 6: offset 3 (`mov r0, r10`) is unreachable — both
the branch edge (to the exit at offset 2) and the fall-through path end at
the exit — so the program is rejected with a dead-instruction diagnostic at
offset 3. -/
theorem claim_C7_counterexample :
    ubpf_verify progDiamond = some (1, [Diag.deadInst 3]) := rfl

/-- C7 (amended): in the four-instruction diamond program, the branch edge
(offset 0 to offset 2) and the fall-through edges (offset 0 to 1, offset 1
to 2) are each walked exactly once — the walk's trace is
`[start 0, jumpEdge 2, fallThrough 1, fallThrough 2]` — but offset 3 is
never entered, so `verify` rejects the program with return value 1 and the
single diagnostic `dead instruction at offset 3`; the register pass never
runs (fail-fast), so no uninitialized-register diagnostic is emitted. -/
theorem claim_C7 :
    (ubpf_walk_start progDiamond _walker_no_loops_or_dead_insts ()).map
        (fun r => r.trace.map (fun e => (e.kind, e.off)))
      = some [(WalkKind.start, 0), (WalkKind.jumpEdge, 2),
          (WalkKind.fallThrough, 1), (WalkKind.fallThrough, 2)]
    ∧ verifyCode progDiamond = some 1
    ∧ verifyDiags progDiamond = [Diag.deadInst 3] := ⟨rfl, rfl, rfl⟩

/-- C8 (code_bug evaluation): at the program `ja -2`, the walk invokes the
loop/dead visitor at offset 0, the visitor's short-circuit guard holds (the
instruction is a jump with target strictly below the current offset), and
the visited-array index it then reads is `0 + 1 + (-2) = -1`, which is
negative — outside `[0, program length)` — before the walker's own bounds
check rejects the jump as out of bounds. -/
theorem claim_C8 :
    (ubpf_walk_start progNegTarget _walker_no_loops_or_dead_insts ()).map
        (fun r => r.trace)
      = some [⟨WalkKind.start, 0, [false]⟩]
    ∧ loopVisitorProbes (instAt progNegTarget 0) 0 = true
    ∧ nextPc 0 (instAt progNegTarget 0) = -1
    ∧ decide (0 ≤ nextPc 0 (instAt progNegTarget 0)) = false
    ∧ ubpf_verify progNegTarget = some (1, [Diag.jumpOutOfBounds 0 (-1)]) :=
  ⟨rfl, rfl, rfl, rfl, rfl⟩

/-- C9: for every program with at least one instruction, the walk started
at offset 0 terminates: with the canonical fuel — which bounds the number
of recursive calls — the embedded walk completes for every visitor. -/
theorem claim_C9 {σ : Type} (prog : List EbpfInst) (f : Visitor σ) (s : σ)
    (hn : 1 ≤ prog.length) :
    (ubpf_walk_start prog f s).isSome = true := by
  obtain ⟨r, hr⟩ := ubpf_walk_start_total prog f s hn
  rw [hr]
  rfl

/-- C9 (witness): the walk of the one-instruction program `[exit]` under
the loop/dead visitor terminates. -/
theorem claim_C9_witness :
    (ubpf_walk_start progExit _walker_no_loops_or_dead_insts ()).isSome
      = true :=
  claim_C9 progExit _walker_no_loops_or_dead_insts () (by decide)

/-- C10: for every program with at least one instruction and every visitor,
every offset the walk reads the instruction array at lies in
`[0, program length)`, and the first read is at offset 0 (the walk enters
offset 0 unconditionally).  The precondition is necessary: on the empty
program the walk (and hence `verify`) does not complete — the C code would
read `insts[0]` out of bounds and recurse past the end. -/
theorem claim_C10 :
    (∀ (σ : Type) (f : Visitor σ) (s : σ) (prog : List EbpfInst)
      (r : WalkResult σ), 1 ≤ prog.length →
      ubpf_walk_start prog f s = some r →
      (∀ e ∈ r.trace, e.off < prog.length) ∧
      (∃ t, r.trace = TraceEntry.mk WalkKind.start 0
        (List.replicate prog.length false) :: t)) ∧
    ubpf_verify ([] : List EbpfInst) = none := by
  constructor
  · intro σ f s prog r hn hr
    unfold ubpf_walk_start at hr
    obtain ⟨_, _, hhead, hent, _, _⟩ := walk_basic prog f
      (walkFuel prog.length) s 0 (List.replicate prog.length false)
      WalkKind.start r hr (by omega) (by rw [List.length_replicate])
    exact ⟨fun e he => (hent e he).1, hhead⟩
  · rfl

/-- C10 (witness): in the walk of `[exit]`, the single instruction-array
read is at offset 0, which is within the one-instruction program. -/
theorem claim_C10_witness :
    TraceEntry.off ⟨WalkKind.start, 0, [false]⟩ < progExit.length :=
  (claim_C10.1 Unit _walker_no_loops_or_dead_insts () progExit
    ⟨WalkAction.cont, (), [true], [], [⟨WalkKind.start, 0, [false]⟩]⟩
    (by decide) rfl).1 ⟨WalkKind.start, 0, [false]⟩ (by decide)

end Ubpf
